import Mathlib

/-!
Verification of the npm install core (`lib/install.js` and its dependency
loader module) against its natural-language specification.

The dependency loader mutates a cyclic in-memory tree of package nodes
(`parent` back-references, `children`, `requiredby`).  We embed it as an
arena: nodes live in a `Store` (a list indexed by node ids) and all the
relations are ids.  New nodes are always appended, so in every store the
code actually builds, a node's `parent` id is smaller than its own id; the
upward walks recurse on that decreasing id, with a defensive cutoff that is
unreachable on such stores.

External collaborators are parameters, following the interfaces the spec
gives them: `satisfies` stands for `semver.satisfies`, and `fetch` for
`fetchPackageMetadata` (spec section 4.B: `resolve(spec, path)` returns a
resolved record or fails).  Asynchronous `asyncMap` iteration is modelled
sequentially in key order; the claims settled here do not depend on the
interleaving of the fetch callbacks.
-/

/-- The `requested` descriptor of a resolved package record:
`{spec, type}` as produced by the metadata resolver. -/
structure Requested where
  spec : String
  rtype : String
deriving Repr, DecidableEq

/-- A pinned shrinkwrap dependency map: each entry is
`name → {version, dependencies?}`, in key order.  An entry either has no
`dependencies` field (`consNone`) or carries a sub-map (`consSome`, which
may be empty), matching the JavaScript truthiness test `sw.dependencies`. -/
inductive SwList where
  | nil
  | consNone (name : String) (version : String) (rest : SwList)
  | consSome (name : String) (version : String) (deps : SwList) (rest : SwList)
deriving Repr, DecidableEq

/-- The `(name, version)` pairs of a shrinkwrap map, in order. -/
def SwList.entries : SwList → List (String × String)
  | .nil => []
  | .consNone nm ver rest => (nm, ver) :: rest.entries
  | .consSome nm ver _ rest => (nm, ver) :: rest.entries

/-- The `shrinkwrap` object a package record may embed; its `dependencies`
field is again optional (`pkg.shrinkwrap && pkg.shrinkwrap.dependencies`). -/
structure SwRoot where
  dependencies : Option SwList
deriving Repr, DecidableEq

/-- A package record: the manifest fields the installer reads, plus the
`requested` descriptor present on records returned by the resolver
(`none` models the bare `{}` package of an unpackaged root). -/
structure Pkg where
  name : String := ""
  version : String := ""
  requested : Option Requested := none
  shrinkwrap : Option SwRoot := none
  dependencies : List (String × String) := []
  optionalDependencies : List (String × String) := []
  devDependencies : List (String × String) := []
deriving Repr, DecidableEq

/-- A tree node.  `path`/`realpath` are modelled as segment lists
(`path.join`/`path.resolve` append segments). -/
structure Node where
  package : Pkg := {}
  parent : Option Nat := none
  children : List Nat := []
  requiredby : List Nat := []
  loaded : Bool := false
  path : List String := []
  realpath : List String := []
deriving Repr, DecidableEq

/-- The arena of nodes; a node id is an index into this list. -/
abbrev Store := List Node

/-- Length of a store. -/
def Store.size (s : Store) : Nat := List.length s

/-- Node lookup; out-of-range ids give the default (empty) node. -/
def getN (s : Store) (i : Nat) : Node := (List.get? s i).getD {}

/-- Node replacement; out of range, the store is unchanged (as `List.set`). -/
def setN (s : Store) (i : Nat) (n : Node) : Store := List.set s i n

/-- Update one node in place. -/
def modN (s : Store) (i : Nat) (f : Node → Node) : Store := setN s i (f (getN s i))

/-- Append a fresh node, returning its id and the grown store. -/
def pushN (s : Store) (n : Node) : Store := List.append s [n]

/-- The recursion of `requirementExists`, made structural on a fuel bound.
In the arena a parent id is always smaller than its child's id, so the walk
recurses only when `p < i` (a defensive cutoff, unreachable on the stores
the code builds) and `i + 1` units of fuel always suffice. -/
def reqExistsGo (satisfies : String → String → Bool) (s : Store) :
    Nat → Nat → String → String → Option Nat
  | 0, _, _, _ => none
  | fuel + 1, i, name, version =>
    if (getN s i).package.name = name then
      if satisfies (getN s i).package.version version then some i else none
    else
      if ((getN s i).children.filter (fun c => (getN s c).package.name = name)).isEmpty then
        match (getN s i).parent with
        | none => none
        | some p => if p < i then reqExistsGo satisfies s fuel p name version else none
      else
        match ((getN s i).children.filter (fun c => (getN s c).package.name = name)).filter
                (fun c => satisfies (getN s c).package.version version) with
        | [] => none
        | m :: _ => some m

/-- `requirementExists(tree, name, version)` from the loader module: walk
from `tree` upward; a chain node that *is* `name` is returned when its
version satisfies, else the walk answers null; otherwise the first
version-satisfying child of the visited node is returned; otherwise recurse
to the parent. -/
def requirementExists (satisfies : String → String → Bool) (s : Store)
    (i : Nat) (name version : String) : Option Nat :=
  reqExistsGo satisfies s (i + 1) i name version

/-- The recursion of `earliestInstallable`, structural on a fuel bound (see
`reqExistsGo` for the fuel convention). -/
def earliestGo (s : Store) (name : String) : Nat → Nat → Option Nat
  | 0, _ => none
  | fuel + 1, i =>
    if (getN s i).package.name = name then some i
    else if ((getN s i).children.filter (fun c => (getN s c).package.name = name)) ≠ [] then none
    else
      match (getN s i).parent with
      | none => some i
      | some p =>
        if p < i then
          match earliestGo s name fuel p with
          | some r => some r
          | none => some i
        else some i

/-- `earliestInstallable(tree, name)`: walk as far up as possible to find a
place to install `name`; `some i` answers a usable ancestor, `none` says the
node at this level has a conflicting child of that name. -/
def earliestInstallable (s : Store) (i : Nat) (name : String) : Option Nat :=
  earliestGo s name (i + 1) i

/-- The walk of `specParentWalk`, structural on the same fuel bound as
`earliestGo`. -/
def specWalkGo (s : Store) (name : String) : Nat → Nat → Nat → Nat
  | 0, prev, _ => prev
  | fuel + 1, prev, i =>
    if (getN s i).package.name = name then i
    else if ((getN s i).children.filter (fun c => (getN s c).package.name = name)) ≠ [] then prev
    else
      match (getN s i).parent with
      | none => i
      | some p => if p < i then specWalkGo s name fuel i p else i

/-- Transcription of the corrected placement description, for comparison
with `earliestInstallable` as `addChild` uses it: walk up from `T`
remembering the previously visited node; an ancestor that *is* `name` is
the parent; an ancestor with a child named `name` stops the walk and the
previously visited node (initially `T`) is the parent; a clean walk ends at
the root, which is the parent. -/
def specParentWalk (s : Store) (name : String) (prev i : Nat) : Nat :=
  specWalkGo s name (i + 1) prev i

/-- Result of `addChild` as seen through its callback: an error, a bare
`cb()` (requirement met by an already-loaded node, or a shrinkwrap was
inflated), or `cb(null, child)` handing a node back for dependency
expansion. -/
inductive AddOut where
  | errored (e : String)
  | stopped
  | proceed (child : Nat)
deriving Repr, DecidableEq

/-- The child node `inflateShrinkwrap` builds for a resolved record. -/
def swChild (s : Store) (tree : Nat) (pkg : Pkg) : Node :=
  { package := pkg
  , parent := none
  , children := []
  , requiredby := [tree]
  , loaded := true
  , path := (getN s tree).path ++ ["node_modules", pkg.name]
  , realpath := (getN s tree).realpath ++ ["node_modules", pkg.name] }

/-- Attach a freshly inflated child under `tree`. -/
def swAttach (s : Store) (tree : Nat) (pkg : Pkg) : Store :=
  modN (pushN s (swChild s tree pkg)) tree
    (fun n => { n with children := n.children ++ [Store.size s] })

/-- `inflateShrinkwrap(tree, swdeps, cb)`: for each pinned entry resolve
`name@version`, attach a fresh child (loaded, required by `tree`, pathed
under `tree`), and recurse into its own pinned sub-dependencies.  A fetch
failure aborts with that error. -/
def inflateShrinkwrap (fetch : String → Except String Pkg) :
    Store → Nat → SwList → Store × Option String
  | s, _, .nil => (s, none)
  | s, tree, .consNone nm ver rest =>
    match fetch (nm ++ "@" ++ ver) with
    | .error e => (s, some e)
    | .ok pkg => inflateShrinkwrap fetch (swAttach s tree pkg) tree rest
  | s, tree, .consSome nm ver ds rest =>
    match fetch (nm ++ "@" ++ ver) with
    | .error e => (s, some e)
    | .ok pkg =>
      match inflateShrinkwrap fetch (swAttach s tree pkg) (Store.size s) ds with
      | (s2, some e) => (s2, some e)
      | (s2, none) => inflateShrinkwrap fetch s2 tree rest

/-- Whether a resolved record carries shrinkwrap dependencies
(`pkg.shrinkwrap && pkg.shrinkwrap.dependencies`). -/
def hasSwDeps (p : Pkg) : Bool :=
  match p.shrinkwrap with
  | some sw => sw.dependencies.isSome
  | none => false

/-- The completion of an `inflateShrinkwrap` call as `addChild` reports it
through its callback: an inflate error becomes the callback error, success
becomes a bare `cb()`. -/
def swOut (x : Store × Option String) : Store × AddOut :=
  match x with
  | (s2, some e) => (s2, AddOut.errored e)
  | (s2, none) => (s2, AddOut.stopped)

/-- The store after `addChild` creates a fresh node for a resolved record
and appends it to the chosen parent's children (the new node's id is the
old store size). -/
def newNodeStore (s : Store) (tree parentId : Nat) (pkg : Pkg) : Store :=
  modN (pushN s
    { package := pkg
    , parent := some parentId
    , children := []
    , requiredby := [tree]
    , loaded := true
    , path := (getN s parentId).path ++ ["node_modules", pkg.name]
    , realpath := (getN s parentId).realpath ++ ["node_modules", pkg.name] })
    parentId (fun n => { n with children := n.children ++ [Store.size s] })

/-- `addChild(spec, tree, log, cb)` after the metadata fetch: either the
requirement is already met by the tree (merge `requested`, union
`requiredby`, mark loaded and possibly inflate a shrinkwrap), or a new node
is created under the earliest installable ancestor. -/
def addChild (satisfies : String → String → Bool) (fetch : String → Except String Pkg)
    (spec : String) (s : Store) (tree : Nat) : Store × AddOut :=
  match fetch spec with
  | .error e => (s, .errored e)
  | .ok pkg =>
    let preq := pkg.requested.getD { spec := "", rtype := "" }
    let version := if preq.spec ≠ "" then preq.spec else pkg.version
    match requirementExists satisfies s tree pkg.name version with
    | some c =>
      let child := getN s c
      let req0 : Option Requested :=
        match child.package.requested with
        | none =>
          if satisfies child.package.version preq.spec then some preq
          else some { spec := child.package.version, rtype := "version" }
        | some q => some q
      let req1 : Option Requested :=
        match req0 with
        | some q =>
          if q.spec ≠ preq.spec then some { spec := q.spec ++ " " ++ preq.spec, rtype := "range" }
          else some q
        | none => none
      let rb := if child.requiredby.contains tree then child.requiredby
                else child.requiredby ++ [tree]
      if child.loaded then
        (setN s c { child with package := { child.package with requested := req1 }
                             , requiredby := rb }, .stopped)
      else
        let s2 := setN s c { child with package := { child.package with requested := req1 }
                                      , requiredby := rb
                                      , loaded := true }
        match pkg.shrinkwrap with
        | some sw =>
          match sw.dependencies with
          | some ds => swOut (inflateShrinkwrap fetch s2 c ds)
          | none => (s2, .proceed c)
        | none => (s2, .proceed c)
    | none =>
      let parentId :=
        match earliestInstallable s tree pkg.name with
        | some p => p
        | none => tree
      let newId := Store.size s
      let s1 := newNodeStore s tree parentId pkg
      match pkg.shrinkwrap with
      | some sw =>
        match sw.dependencies with
        | some ds => swOut (inflateShrinkwrap fetch s1 newId ds)
        | none => (s1, .proceed newId)
      | none => (s1, .proceed newId)

/-- The warning text `warnOnError` logs for a swallowed optional failure. -/
def warnMsg (e : String) : String := "Couldnt install optional dependency: " ++ e

/-- `warnOnError(log, cb)`: turn an erroring continuation into a warning
plus a success with no result. -/
def warnOnError (r : Store × List String × Option String) : Store × List String × Option String :=
  match r with
  | (s, w, some e) => (s, w ++ [warnMsg e], none)
  | (s, w, none) => (s, w, none)

/-- JavaScript truthiness of `map[dep]` for a string-valued map: the key is
present with a non-empty value. -/
def truthyLookup (m : List (String × String)) (dep : String) : Bool :=
  match m.find? (fun p => p.1 = dep) with
  | some q => q.2 ≠ ""
  | none => false

/-- One `asyncMap` pass of `loadDeps` over the declared dependencies, in
key order: place each `dep@version` with `addChild`, recurse into a
returned child's own dependency list, and wrap the continuation with
`warnOnError` when the name is also in `optionalDependencies`.  `fuel`
bounds the recursion depth through the (externally resolved, possibly
infinite) dependency graph. -/
def loadDepsList (satisfies : String → String → Bool) (fetch : String → Except String Pkg) :
    Nat → Store → Nat → List (String × String) → List (String × String) →
    Store × List String × Option String
  | 0, s, _, _, _ => (s, [], some "out of fuel")
  | _ + 1, s, _, _, [] => (s, [], none)
  | fuel + 1, s, t, opts, (dep, ver) :: rest =>
    let raw : Store × List String × Option String :=
      match addChild satisfies fetch (dep ++ "@" ++ ver) s t with
      | (s1, .errored e) => (s1, [], some e)
      | (s1, .stopped) => (s1, [], none)
      | (s1, .proceed c) =>
        loadDepsList satisfies fetch fuel s1 c
          (getN s1 c).package.optionalDependencies (getN s1 c).package.dependencies
    let step := if truthyLookup opts dep then warnOnError raw else raw
    match step with
    | (s1, w1, some e) => (s1, w1, some e)
    | (s1, w1, none) =>
      match loadDepsList satisfies fetch fuel s1 t opts rest with
      | (s2, w2, e2) => (s2, w1 ++ w2, e2)

/-- `loadDeps(tree, log, cb)`: load any missing dependencies of the node;
an absent node (the `cb()` path of `addChild` chained through
`asCbWithCb`) loads nothing.  Returns the store, the warnings logged, and
the error handed to the callback. -/
def loadDeps (satisfies : String → String → Bool) (fetch : String → Except String Pkg)
    (fuel : Nat) (s : Store) : Option Nat → Store × List String × Option String
  | none => (s, [], none)
  | some t =>
    loadDepsList satisfies fetch fuel s t
      (getN s t).package.optionalDependencies (getN s t).package.dependencies

/-- One dev dependency of `loadDevDeps`: place it with `addChild`, remember
the placing parent, null the parent link, load the transitive dependencies
as a detached subtree, and restore the parent link when — and only when —
that recursive load reports no error.  The bare `cb()` path of `addChild`
dereferences the absent `child` in the source; it is modelled as a thrown
error. -/
def loadDevDepOne (satisfies : String → String → Bool) (fetch : String → Except String Pkg)
    (fuel : Nat) (s : Store) (t : Nat) (dep ver : String) :
    Store × List String × Option String :=
  match addChild satisfies fetch (dep ++ "@" ++ ver) s t with
  | (s1, .errored e) => (s1, [], some e)
  | (s1, .stopped) => (s1, [], some "TypeError: child is undefined")
  | (s1, .proceed c) =>
    let realParent := (getN s1 c).parent
    let s2 := modN s1 c (fun n => { n with parent := none })
    match loadDeps satisfies fetch fuel s2 (some c) with
    | (s3, w, some e) => (s3, w, some e)
    | (s3, w, none) => (modN s3 c (fun n => { n with parent := realParent }), w, none)

/-- The `asyncMap` pass of `loadDevDeps` over `devDependencies`, skipping
names that are already runtime dependencies. -/
def loadDevDepsList (satisfies : String → String → Bool) (fetch : String → Except String Pkg)
    (fuel : Nat) : Store → Nat → List (String × String) → List (String × String) →
    Store × List String × Option String
  | s, _, _, [] => (s, [], none)
  | s, t, deps, (dep, ver) :: rest =>
    if truthyLookup deps dep then loadDevDepsList satisfies fetch fuel s t deps rest
    else
      match loadDevDepOne satisfies fetch fuel s t dep ver with
      | (s1, w1, some e) => (s1, w1, some e)
      | (s1, w1, none) =>
        match loadDevDepsList satisfies fetch fuel s1 t deps rest with
        | (s2, w2, e2) => (s2, w1 ++ w2, e2)

/-- `loadDevDeps(tree, log, cb)`: load development dependencies of the node
that are not already runtime dependencies. -/
def loadDevDeps (satisfies : String → String → Bool) (fetch : String → Except String Pkg)
    (fuel : Nat) (s : Store) (t : Nat) : Store × List String × Option String :=
  loadDevDepsList satisfies fetch fuel s t
    (getN s t).package.dependencies (getN s t).package.devDependencies

/-- What the callback wrapped by `unlockCB` ends up doing: either the
wrapper body raises (strict mode) or the underlying callback is invoked
with the given error. -/
inductive CbOutcome where
  | threw (msg : String)
  | callback (er : Option String)
deriving Repr, DecidableEq

/-- Result of running the function `unlockCB(path, name, cb)` returns:
whether `unlock` was invoked, and what reached the callback. -/
structure UnlockRun where
  unlockAttempted : Bool
  outcome : CbOutcome
deriving Repr, DecidableEq

/-- `unlockCB` from `lib/install.js`, as a function of the primary error
`er1` handed to the wrapped callback and the error `er2` reported by
`unlock`.  `unlock` is invoked before any branching, so it is attempted on
every path.  When both errors are present the source evaluates
`"unlock " + namej` — `namej` is not declared anywhere and the file is in
strict mode, so a `ReferenceError` is raised instead of the intended
warning-then-`cb.apply(null, args)`. -/
def unlockCB (er1 er2 : Option String) : UnlockRun :=
  { unlockAttempted := true
  , outcome :=
      match er1, er2 with
      | some _, some _ => .threw "ReferenceError: namej is not defined"
      | some _, none => .callback er1
      | none, some e2 => .callback (some e2)
      | none, none => .callback none }

/-- Whether a step of the driver runs its entries in parallel
(`doParallel`) or serially (`doSerial`). -/
inductive Mode where
  | par
  | ser
deriving Repr, DecidableEq

/-- One step of the `chain` the driver builds in `thenInstall`.  Falsy
members of the source array (skipped by `chain`) are simply omitted. -/
inductive Step where
  | mkdirStaging
  | loadDepsStep
  | loadArgsStep
  | loadDevDepsStep
  | validateTreeStep
  | diffTreesStep
  | decomposeActionsStep
  | debugActionsStep
  | phase (name : String) (mode : Mode)
  | rimrafStaging
  | unlockStaging
  | rootAction (name : String)
deriving Repr, DecidableEq

/-- The step list `thenInstall` hands to `chain`, as a function of the
effective install arguments and the `npat`, `production` and `dev`
configuration flags (the source computes
`dev = npm.config.get("dev") || !npm.config.get("production")`). -/
def thenInstallSteps (args : List String) (npat production devCfg : Bool) : List Step :=
  let dev := devCfg || !production
  [Step.mkdirStaging, Step.loadDepsStep]
  ++ (if args.isEmpty then [] else [Step.loadArgsStep])
  ++ (if dev then [Step.loadDevDepsStep] else [])
  ++ [Step.validateTreeStep, Step.diffTreesStep, Step.decomposeActionsStep, Step.debugActionsStep]
  ++ [Step.phase "fetch" Mode.par, Step.phase "extract" Mode.par
     , Step.phase "preinstall" Mode.par, Step.phase "build" Mode.par
     , Step.phase "remove" Mode.par, Step.phase "finalize" Mode.ser
     , Step.phase "install" Mode.ser, Step.phase "postinstall" Mode.ser]
  ++ (if npat then [Step.phase "test" Mode.par] else [])
  ++ [Step.rimrafStaging, Step.unlockStaging]
  ++ (if args.isEmpty then
        [Step.rootAction "preinstall", Step.rootAction "build", Step.rootAction "postinstall"]
      else [])
  ++ (if args.isEmpty && npat then [Step.rootAction "test"] else [])
  ++ (if production then [] else [Step.rootAction "prepublish"])

/-- The action-plan phases of a step list, in order, with their modes. -/
def phasesOf (steps : List Step) : List (String × Mode) :=
  steps.filterMap fun st =>
    match st with
    | Step.phase n m => some (n, m)
    | _ => none

/-- `thenInstall(node_modules, staging, args, T, cb)`: before the chain
runs, the ideal tree's children are discarded when the user ran a bare
`npm install` against a root without a shrinkwrap; the function then
executes the step list.  We model the tree reset together with the step
list it goes on to run. -/
def thenInstall (s : Store) (root : Nat) (args : List String)
    (npat production devCfg : Bool) : Store × List Step :=
  ( if (getN s root).package.shrinkwrap.isNone && args.isEmpty then
      modN s root (fun n => { n with children := [] })
    else s
  , thenInstallSteps args npat production devCfg )

/-- An execution event of the phase scheduler: entry `k` of the named phase
starts, or finishes.  Within one phase, entries are numbered in the order
the differ emitted them. -/
inductive Ev where
  | start (phase : String) (k : Nat)
  | done (phase : String) (k : Nat)
deriving Repr, DecidableEq

/-- The phase an event belongs to. -/
def Ev.phaseOf : Ev → String
  | .start p _ => p
  | .done p _ => p

/-- Modelled from the spec: `doSerial` runs the `count` entries of a phase
one-completes-before-next-starts, in emission order. -/
def serialBlock (p : String) : Nat → List Ev
  | 0 => []
  | n + 1 => serialBlock p n ++ [Ev.start p n, Ev.done p n]

/-- Modelled from the spec: `doParallel` runs the entries of a phase with
no mutual ordering guarantee — any interleaving in which each entry starts
before it finishes — and returns only once all of them finished. -/
def ParBlock (p : String) (count : Nat) (bl : List Ev) : Prop :=
  bl.Perm (serialBlock p count) ∧
  ∀ k, k < count → ∃ i j, i < j ∧ bl.get? i = some (Ev.start p k) ∧ bl.get? j = some (Ev.done p k)

/-- Modelled from the spec: `chain` runs the steps strictly in sequence, so
an execution trace of a phase plan is one block per phase, in plan order,
each block shaped by the phase's mode.  `cnt` gives the number of plan
entries decomposed into each phase. -/
inductive PlanTrace (cnt : String → Nat) : List (String × Mode) → List Ev → Prop where
  | nil : PlanTrace cnt [] []
  | ser {p : String} {rest : List (String × Mode)} {tr : List Ev} :
      PlanTrace cnt rest tr →
      PlanTrace cnt ((p, Mode.ser) :: rest) (serialBlock p (cnt p) ++ tr)
  | par {p : String} {bl : List Ev} {rest : List (String × Mode)} {tr : List Ev} :
      ParBlock p (cnt p) bl →
      PlanTrace cnt rest tr →
      PlanTrace cnt ((p, Mode.par) :: rest) (bl ++ tr)

theorem size_setN (s : Store) (i : Nat) (n : Node) : Store.size (setN s i n) = Store.size s := by
  simp [Store.size, setN]

theorem getN_setN_self {s : Store} {i : Nat} (n : Node) (h : i < Store.size s) :
    getN (setN s i n) i = n := by
  simp only [getN, setN, List.get?_eq_getElem?]
  rw [List.getElem?_set_eq_of_lt _ h]
  rfl

theorem getN_setN_ne {s : Store} {i j : Nat} (n : Node) (h : j ≠ i) :
    getN (setN s i n) j = getN s j := by
  simp only [getN, setN, List.get?_eq_getElem?]
  rw [List.getElem?_set_ne (Ne.symm h)]

theorem size_pushN (s : Store) (n : Node) : Store.size (pushN s n) = Store.size s + 1 := by
  simp [Store.size, pushN]

theorem getN_pushN_lt {s : Store} {i : Nat} (n : Node) (h : i < Store.size s) :
    getN (pushN s n) i = getN s i := by
  simp only [getN, pushN, List.get?_eq_getElem?, List.append_eq]
  rw [List.getElem?_append_left h]

theorem getN_pushN_self (s : Store) (n : Node) : getN (pushN s n) (Store.size s) = n := by
  simp only [getN, pushN, List.get?_eq_getElem?, List.append_eq, Store.size]
  rw [List.getElem?_concat_length]
  rfl

theorem reqExistsGo_some {satisfies : String → String → Bool} {s : Store}
    {name version : String} :
    ∀ fuel i c, reqExistsGo satisfies s fuel i name version = some c →
    (getN s c).package.name = name ∧ satisfies (getN s c).package.version version = true := by
  intro fuel
  induction fuel with
  | zero => intro i c h; simp [reqExistsGo] at h
  | succ fuel ih =>
    intro i c h
    rw [reqExistsGo] at h
    split at h
    next hname =>
      split at h
      next hsat => cases h; exact ⟨hname, hsat⟩
      next => exact absurd h (by simp)
    next hname =>
      split at h
      next hempty =>
        split at h
        next => exact absurd h (by simp)
        next p hp =>
          split at h
          next hlt => exact ih p c h
          next => exact absurd h (by simp)
      next hempty =>
        split at h
        next => exact absurd h (by simp)
        next =>
          rename_i m tail heq
          injection h with hmc
          have hm : m ∈ ((getN s i).children.filter
              (fun c => (getN s c).package.name = name)).filter
              (fun c => satisfies (getN s c).package.version version) := by
            rw [heq]; exact List.mem_cons_self _ _
          have hsat := List.of_mem_filter hm
          have hm2 := List.mem_of_mem_filter hm
          have hnm := List.of_mem_filter hm2
          subst hmc
          refine ⟨by simpa using hnm, by simpa using hsat⟩

theorem requirementExists_some {satisfies : String → String → Bool} {s : Store} {i : Nat}
    {name version : String} {c : Nat}
    (h : requirementExists satisfies s i name version = some c) :
    (getN s c).package.name = name ∧ satisfies (getN s c).package.version version = true :=
  reqExistsGo_some (i + 1) i c h

theorem earliestGo_eq_specWalkGo (s : Store) (name : String) :
    ∀ fuel prev i, (match earliestGo s name fuel i with
                    | some r => r
                    | none => prev) = specWalkGo s name fuel prev i := by
  intro fuel
  induction fuel with
  | zero => intro prev i; simp [earliestGo, specWalkGo]
  | succ fuel ih =>
    intro prev i
    rw [earliestGo, specWalkGo]
    by_cases h1 : (getN s i).package.name = name
    · simp [h1]
    · by_cases h2 : ((getN s i).children.filter (fun c => (getN s c).package.name = name)) = []
      · cases hp : (getN s i).parent with
        | none => simp [h1, h2, hp]
        | some p =>
          by_cases hlt : p < i
          · have hrec := ih i p
            cases hE : earliestGo s name fuel p with
            | none => simp [h1, h2, hp, hlt, hE]; simpa [hE] using hrec
            | some r => simp [h1, h2, hp, hlt, hE]; simpa [hE] using hrec
          · simp [h1, h2, hp, hlt]
      · simp [h1, h2]

theorem earliest_eq_specParentWalk (s : Store) (name : String) (i prev : Nat) :
    (match earliestInstallable s i name with
     | some r => r
     | none => prev) = specParentWalk s name prev i :=
  earliestGo_eq_specWalkGo s name (i + 1) prev i

theorem getN_oob {s : Store} {i : Nat} (h : Store.size s ≤ i) : getN s i = {} := by
  simp only [getN, List.get?_eq_getElem?]
  rw [List.getElem?_eq_none h]
  rfl

theorem setN_oob {s : Store} {i : Nat} (n : Node) (h : Store.size s ≤ i) : setN s i n = s := by
  simp only [setN]
  exact List.set_eq_of_length_le h

/-- A concrete stand-in for `semver.satisfies` used by the concrete
scenarios: version `1.0.0` satisfies the ranges `^1` and `1`, nothing else
satisfies anything. -/
def satFix (v r : String) : Bool := v = "1.0.0" && (r = "^1" || r = "1")

/-- Tree for the placement counterexample: a root `g` whose children are a
chain node `p` (with child `t`) and a conflicting copy of `x` at version
`9.9.9`. -/
def storeConflict : Store :=
  [ { package := { name := "g", version := "1.0.0" }, parent := none, children := [1, 3] }
  , { package := { name := "p", version := "1.0.0" }, parent := some 0, children := [2] }
  , { package := { name := "t", version := "1.0.0" }, parent := some 1, children := [] }
  , { package := { name := "x", version := "9.9.9" }, parent := some 0, children := [] } ]

/-- The record `x@^1` resolves to in the placement counterexample. -/
def pkgX : Pkg := { name := "x", version := "1.0.0", requested := some ⟨"^1", "range"⟩ }

/-- Resolver for the placement counterexample: only `x@^1` resolves. -/
def fetchConflict : String → Except String Pkg := fun sp =>
  if sp = "x@^1" then Except.ok pkgX else Except.error "404"

/-- Tree for the requirement-met counterexample: a root with one not yet
loaded child `a@1.0.0`. -/
def storeMet : Store :=
  [ { package := { name := "root" }, children := [1] }
  , { package := { name := "a", version := "1.0.0" }, parent := some 0
    , requiredby := [0], loaded := false } ]

/-- The shrinkwrap-carrying record `a@^1` resolves to in the
requirement-met counterexample. -/
def pkgASw : Pkg :=
  { name := "a", version := "1.0.0", requested := some ⟨"^1", "range"⟩
  , shrinkwrap := some ⟨some (SwList.consNone "b" "1.0.0" SwList.nil)⟩ }

/-- The plain record `a@^1` resolves to when no shrinkwrap is involved. -/
def pkgA : Pkg := { name := "a", version := "1.0.0", requested := some ⟨"^1", "range"⟩ }

/-- Resolver for the requirement-met counterexample: `a@^1` resolves to a
record carrying a one-entry shrinkwrap, whose pinned `b@1.0.0` also
resolves. -/
def fetchMet : String → Except String Pkg := fun sp =>
  if sp = "a@^1" then Except.ok pkgASw
  else if sp = "b@1.0.0" then
    Except.ok { name := "b", version := "1.0.0", requested := some ⟨"1.0.0", "version"⟩ }
  else Except.error "404"

/-- Resolver mapping `a@^1` to the plain record `pkgA`. -/
def fetchPlain : String → Except String Pkg := fun sp =>
  if sp = "a@^1" then Except.ok pkgA else Except.error "404"

/-- Tree for the optional-dependency counterexample: a root declaring `a`
both as a runtime and as an optional dependency. -/
def storeOpt : Store :=
  [ { package := { name := "root", dependencies := [("a", "1")]
                 , optionalDependencies := [("a", "1")] } } ]

/-- Resolver for the optional-dependency and dev-dependency
counterexamples: `a@1` resolves to a package depending on `b@1`, and `b@1`
(like everything else) fails to resolve. -/
def pkgAB : Pkg :=
  { name := "a", version := "1.0.0", requested := some ⟨"1", "range"⟩
  , dependencies := [("b", "1")] }

def fetchOpt : String → Except String Pkg := fun sp =>
  if sp = "a@1" then Except.ok pkgAB else Except.error "404"

/-- Tree for the dev-dependency counterexample: a root declaring only the
dev dependency `a@1`. -/
def storeDev : Store :=
  [ { package := { name := "root", devDependencies := [("a", "1")] } } ]

/-- C5: on every exit of the install driver the `(node_modules, ".staging")`
lock is released via `unlock` — the driver wraps its callback in `unlockCB`,
which invokes `unlock` before any branching — and a sole error is passed
through; but in the path where both a primary error and an unlock failure
occur, the source evaluates the undeclared identifier `namej` (and calls
the nonexistent `log.warning`), so a `ReferenceError` is raised instead of
logging a warning and handing the callback the unchanged primary error. -/
theorem c5_unlock_bug :
    (∀ er1 er2, (unlockCB er1 er2).unlockAttempted = true) ∧
    (unlockCB (some "EPRIMARY") none).outcome = CbOutcome.callback (some "EPRIMARY") ∧
    (unlockCB none (some "EUNLOCK")).outcome = CbOutcome.callback (some "EUNLOCK") ∧
    (unlockCB none none).outcome = CbOutcome.callback none ∧
    (unlockCB (some "EPRIMARY") (some "EUNLOCK")).outcome
      = CbOutcome.threw "ReferenceError: namej is not defined" ∧
    (unlockCB (some "EPRIMARY") (some "EUNLOCK")).outcome
      ≠ CbOutcome.callback (some "EPRIMARY") := by
  refine ⟨fun e1 e2 => rfl, rfl, rfl, rfl, rfl, by decide⟩

/-- C10: with no explicit install args and no shrinkwrap on the root
manifest, `thenInstall` resets the ideal tree's children to the empty list
before the step chain (and so before any dependency loading) runs; nothing
else about the tree changes. -/
theorem c10_children_reset {s : Store} {root : Nat} {args : List String}
    {npat production devCfg : Bool}
    (hsw : (getN s root).package.shrinkwrap = none) (hargs : args = []) :
    (getN (thenInstall s root args npat production devCfg).1 root).children = [] ∧
    (∀ j, j ≠ root → getN (thenInstall s root args npat production devCfg).1 j = getN s j) ∧
    (getN (thenInstall s root args npat production devCfg).1 root).package
      = (getN s root).package ∧
    (getN (thenInstall s root args npat production devCfg).1 root).parent
      = (getN s root).parent ∧
    (thenInstall s root args npat production devCfg).2
      = thenInstallSteps args npat production devCfg := by
  subst hargs
  have hcond : ((getN s root).package.shrinkwrap.isNone
      && List.isEmpty ([] : List String)) = true := by
    simp [hsw]
  refine ⟨?_, ?_, ?_, ?_, rfl⟩
  · simp only [thenInstall, hcond, if_true]
    by_cases hrt : root < Store.size s
    · rw [modN, getN_setN_self _ hrt]
    · rw [modN, setN_oob _ (Nat.le_of_not_lt hrt), getN_oob (Nat.le_of_not_lt hrt)]
  · intro j hj
    simp only [thenInstall, hcond, if_true]
    rw [modN, getN_setN_ne _ hj]
  · simp only [thenInstall, hcond, if_true]
    by_cases hrt : root < Store.size s
    · rw [modN, getN_setN_self _ hrt]
    · rw [modN, setN_oob _ (Nat.le_of_not_lt hrt)]
  · simp only [thenInstall, hcond, if_true]
    by_cases hrt : root < Store.size s
    · rw [modN, getN_setN_self _ hrt]
    · rw [modN, setN_oob _ (Nat.le_of_not_lt hrt)]

/-- C10 witness: a one-node store with no shrinkwrap and no args. -/
theorem c10_witness :
    (getN (thenInstall storeDev 0 [] true false false).1 0).children = [] ∧
    (getN (thenInstall storeDev 0 [] true false false).1 0).package
      = (getN storeDev 0).package := by
  have h := @c10_children_reset storeDev 0 [] true false false (by rfl) (by rfl)
  exact ⟨h.1, h.2.2.1⟩

/-- C9 counterexample: with explicit install args (here `["x"]`) the claim
says none of the top-level root hooks run, yet `thenInstall` still schedules
the root `prepublish` action whenever `production` is off — its step is
guarded only by `!npm.config.get("production")`, not by `!args.length`. -/
theorem c9_counterexample :
    Step.rootAction "prepublish" ∈ thenInstallSteps ["x"] false false false ∧
    (["x"] : List String) ≠ [] ∧
    Step.rootAction "preinstall" ∉ thenInstallSteps ["x"] false false false := by
  decide

/-- C9 (corrected): the root `preinstall`, `build` and `postinstall` hooks
are scheduled iff no explicit args were supplied; the root `test` hook iff
additionally `npat` is set; but the root `prepublish` hook is scheduled iff
`production` is off, independently of the args. -/
theorem c9_root_lifecycle_guards (args : List String) (npat production devCfg : Bool) :
    (Step.rootAction "preinstall" ∈ thenInstallSteps args npat production devCfg ↔ args = []) ∧
    (Step.rootAction "build" ∈ thenInstallSteps args npat production devCfg ↔ args = []) ∧
    (Step.rootAction "postinstall" ∈ thenInstallSteps args npat production devCfg ↔ args = []) ∧
    (Step.rootAction "test" ∈ thenInstallSteps args npat production devCfg
      ↔ (args = [] ∧ npat = true)) ∧
    (Step.rootAction "prepublish" ∈ thenInstallSteps args npat production devCfg
      ↔ production = false) := by
  cases args <;> cases npat <;> cases production <;> cases devCfg <;>
    simp [thenInstallSteps]

/-- C2 counterexample: the claim says that when a visited ancestor has a
conflicting child of the name, the new node is placed under `T` itself.  In
the store below, `T` is node 2 (`t`), its grandparent `g` has a conflicting
child `x@9.9.9`, and `addChild` places the new copy of `x` under node 1
(`p`), the ancestor just below the conflict — not under `T`. -/
theorem c2_counterexample :
    requirementExists satFix storeConflict 2 "x" "^1" = none ∧
    ((getN storeConflict 0).children.filter
      (fun c => (getN storeConflict c).package.name = "x")) ≠ [] ∧
    (addChild satFix fetchConflict "x@^1" storeConflict 2).2 = AddOut.proceed 4 ∧
    (getN (addChild satFix fetchConflict "x@^1" storeConflict 2).1 4).parent = some 1 ∧
    (getN (addChild satFix fetchConflict "x@^1" storeConflict 2).1 2).children = [] ∧
    (1 : Nat) ≠ 2 := by
  refine ⟨by decide, by decide, by decide, by decide, by decide, by decide⟩

theorem size_swAttach (s : Store) (t : Nat) (pkg : Pkg) :
    Store.size (swAttach s t pkg) = Store.size s + 1 := by
  simp [swAttach, modN, size_setN, size_pushN]

theorem getN_swAttach_ne {s : Store} {t j : Nat} (pkg : Pkg)
    (hj : j < Store.size s) (hne : j ≠ t) :
    getN (swAttach s t pkg) j = getN s j := by
  rw [swAttach, modN, getN_setN_ne _ hne, getN_pushN_lt _ hj]

theorem getN_swAttach_t {s : Store} {t : Nat} (pkg : Pkg) (ht : t < Store.size s) :
    getN (swAttach s t pkg) t
      = { getN s t with children := (getN s t).children ++ [Store.size s] } := by
  have ht1 : t < Store.size (pushN s (swChild s t pkg)) := by
    rw [size_pushN]; exact Nat.lt_succ_of_lt ht
  rw [swAttach, modN, getN_setN_self _ ht1, getN_pushN_lt _ ht]

theorem getN_swAttach_new {s : Store} {t : Nat} (pkg : Pkg) (ht : t < Store.size s) :
    getN (swAttach s t pkg) (Store.size s) = swChild s t pkg := by
  have hne : Store.size s ≠ t := fun hEq => absurd (hEq ▸ ht) (Nat.lt_irrefl _)
  rw [swAttach, modN, getN_setN_ne _ hne, getN_pushN_self]

theorem inflate_frame (fetch : String → Except String Pkg) :
    ∀ (ds : SwList) (s : Store) (t : Nat),
      Store.size s ≤ Store.size (inflateShrinkwrap fetch s t ds).1 ∧
      (∀ j, j < Store.size s → j ≠ t → getN (inflateShrinkwrap fetch s t ds).1 j = getN s j) ∧
      (t < Store.size s →
        (getN (inflateShrinkwrap fetch s t ds).1 t).package = (getN s t).package ∧
        (getN (inflateShrinkwrap fetch s t ds).1 t).parent = (getN s t).parent ∧
        (getN (inflateShrinkwrap fetch s t ds).1 t).requiredby = (getN s t).requiredby ∧
        (getN (inflateShrinkwrap fetch s t ds).1 t).loaded = (getN s t).loaded ∧
        (getN (inflateShrinkwrap fetch s t ds).1 t).path = (getN s t).path ∧
        (getN (inflateShrinkwrap fetch s t ds).1 t).realpath = (getN s t).realpath) := by
  intro ds
  induction ds with
  | nil =>
    intro s t
    exact ⟨Nat.le_refl _, fun j _ _ => rfl, fun _ => ⟨rfl, rfl, rfl, rfl, rfl, rfl⟩⟩
  | consNone nm ver rest ih =>
    intro s t
    rw [inflateShrinkwrap]
    cases hfe : fetch (nm ++ "@" ++ ver) with
    | error e =>
      exact ⟨Nat.le_refl _, fun j _ _ => rfl, fun _ => ⟨rfl, rfl, rfl, rfl, rfl, rfl⟩⟩
    | ok pkg =>
      dsimp only
      obtain ⟨ihsz, ihfr, ihfields⟩ := ih (swAttach s t pkg) t
      have hsz1 : Store.size s + 1 = Store.size (swAttach s t pkg) := (size_swAttach s t pkg).symm
      refine ⟨?_, ?_, ?_⟩
      · calc Store.size s ≤ Store.size s + 1 := Nat.le_succ _
          _ = Store.size (swAttach s t pkg) := hsz1
          _ ≤ _ := ihsz
      · intro j hj hne
        rw [ihfr j (by rw [← hsz1]; exact Nat.lt_succ_of_lt hj) hne]
        exact getN_swAttach_ne pkg hj hne
      · intro ht
        have h2 := ihfields (by rw [← hsz1]; exact Nat.lt_succ_of_lt ht)
        have h3 := getN_swAttach_t pkg ht
        refine ⟨?_, ?_, ?_, ?_, ?_, ?_⟩ <;>
          simp [h2.1, h2.2.1, h2.2.2.1, h2.2.2.2.1, h2.2.2.2.2.1, h2.2.2.2.2.2, h3]
  | consSome nm ver ds rest ihds ihrest =>
    intro s t
    rw [inflateShrinkwrap]
    cases hfe : fetch (nm ++ "@" ++ ver) with
    | error e =>
      exact ⟨Nat.le_refl _, fun j _ _ => rfl, fun _ => ⟨rfl, rfl, rfl, rfl, rfl, rfl⟩⟩
    | ok pkg =>
      dsimp only
      obtain ⟨idsz, idfr, idfields⟩ := ihds (swAttach s t pkg) (Store.size s)
      have hsz1 : Store.size s + 1 = Store.size (swAttach s t pkg) := (size_swAttach s t pkg).symm
      have hszs : Store.size s
          ≤ Store.size (inflateShrinkwrap fetch (swAttach s t pkg) (Store.size s) ds).1 := by
        calc Store.size s ≤ Store.size s + 1 := Nat.le_succ _
          _ = Store.size (swAttach s t pkg) := hsz1
          _ ≤ _ := idsz
      have hfr1 : ∀ j, j < Store.size s → j ≠ t →
          getN (inflateShrinkwrap fetch (swAttach s t pkg) (Store.size s) ds).1 j = getN s j := by
        intro j hj hne
        have hjne : j ≠ Store.size s := Nat.ne_of_lt hj
        rw [idfr j (by rw [← hsz1]; exact Nat.lt_succ_of_lt hj) hjne]
        exact getN_swAttach_ne pkg hj hne
      have hft1 : t < Store.size s →
          getN (inflateShrinkwrap fetch (swAttach s t pkg) (Store.size s) ds).1 t
            = { getN s t with children := (getN s t).children ++ [Store.size s] } := by
        intro ht
        have htne : t ≠ Store.size s := Nat.ne_of_lt ht
        rw [idfr t (by rw [← hsz1]; exact Nat.lt_succ_of_lt ht) htne]
        exact getN_swAttach_t pkg ht
      cases hinner : inflateShrinkwrap fetch (swAttach s t pkg) (Store.size s) ds with
      | mk s2 e2 =>
        rw [hinner] at hszs hfr1 hft1
        cases e2 with
        | some e =>
          dsimp only at hszs hfr1 hft1 ⊢
          refine ⟨hszs, hfr1, ?_⟩
          intro ht
          rw [hft1 ht]
          exact ⟨rfl, rfl, rfl, rfl, rfl, rfl⟩
        | none =>
          dsimp only at hszs hfr1 hft1 ⊢
          obtain ⟨irsz, irfr, irfields⟩ := ihrest s2 t
          refine ⟨Nat.le_trans hszs irsz, ?_, ?_⟩
          · intro j hj hne
            rw [irfr j (Nat.lt_of_lt_of_le hj hszs) hne]
            exact hfr1 j hj hne
          · intro ht
            have h2 := irfields (Nat.lt_of_lt_of_le ht hszs)
            have h3 := hft1 ht
            refine ⟨?_, ?_, ?_, ?_, ?_, ?_⟩ <;>
              simp [h2.1, h2.2.1, h2.2.2.1, h2.2.2.2.1, h2.2.2.2.2.1, h2.2.2.2.2.2, h3]

theorem swOut_fst (x : Store × Option String) : (swOut x).1 = x.1 := by
  rcases x with ⟨a, b⟩
  cases b <;> rfl

theorem size_newNodeStore (s : Store) (tree p : Nat) (pkg : Pkg) :
    Store.size (newNodeStore s tree p pkg) = Store.size s + 1 := by
  rw [newNodeStore, modN, size_setN, size_pushN]

theorem getN_newNodeStore_new {s : Store} {p : Nat} (tree : Nat) (pkg : Pkg)
    (hp : p < Store.size s) :
    getN (newNodeStore s tree p pkg) (Store.size s)
      = { package := pkg
        , parent := some p
        , children := []
        , requiredby := [tree]
        , loaded := true
        , path := (getN s p).path ++ ["node_modules", pkg.name]
        , realpath := (getN s p).realpath ++ ["node_modules", pkg.name] } := by
  have hne : Store.size s ≠ p := fun h => absurd (h ▸ hp) (Nat.lt_irrefl _)
  rw [newNodeStore, modN, getN_setN_ne _ hne, getN_pushN_self]

theorem getN_newNodeStore_parent {s : Store} {p : Nat} (tree : Nat) (pkg : Pkg)
    (hp : p < Store.size s) :
    getN (newNodeStore s tree p pkg) p
      = { getN s p with children := (getN s p).children ++ [Store.size s] } := by
  rw [newNodeStore, modN, getN_setN_self _ (by rw [size_pushN]; omega), getN_pushN_lt _ hp]

/-- C2 (corrected): when no satisfying requirement exists, `addChild`
creates one new node whose parent — for every resolved record, whether or
not it carries shrinkwrap dependencies — is computed by the upward walk
`specParentWalk`: walk up from `T`; an ancestor that is itself named
`name` becomes the parent; an ancestor with a conflicting child named
`name` stops the walk and the previously visited node — `T` itself when
`T` has the conflicting child — becomes the parent; a clean walk ends at
the root, which becomes the parent.  The new node is appended to that
parent's children, pathed under it, and carries the resolved record; when
the record has no shrinkwrap dependencies, `addChild` hands the new node
back for dependency expansion and the store grows by exactly one. -/
theorem c2_parent_choice
    {satisfies : String → String → Bool} {fetch : String → Except String Pkg}
    {spec : String} {s : Store} {tree : Nat} {pkg : Pkg} {r : Requested}
    (hf : fetch spec = Except.ok pkg)
    (hr : pkg.requested = some r)
    (hex : requirementExists satisfies s tree pkg.name
            (if r.spec ≠ "" then r.spec else pkg.version) = none)
    (hP : specParentWalk s pkg.name tree tree < Store.size s) :
    (getN (addChild satisfies fetch spec s tree).1 (Store.size s)).parent
      = some (specParentWalk s pkg.name tree tree) ∧
    (getN (addChild satisfies fetch spec s tree).1 (specParentWalk s pkg.name tree tree)).children
      = (getN s (specParentWalk s pkg.name tree tree)).children ++ [Store.size s] ∧
    (getN (addChild satisfies fetch spec s tree).1 (Store.size s)).package = pkg ∧
    (getN (addChild satisfies fetch spec s tree).1 (Store.size s)).path
      = (getN s (specParentWalk s pkg.name tree tree)).path ++ ["node_modules", pkg.name] ∧
    Store.size s < Store.size (addChild satisfies fetch spec s tree).1 ∧
    (hasSwDeps pkg = false →
      (addChild satisfies fetch spec s tree).2 = AddOut.proceed (Store.size s) ∧
      Store.size (addChild satisfies fetch spec s tree).1 = Store.size s + 1) := by
  have hpw := earliest_eq_specParentWalk s pkg.name tree tree
  cases hswo : pkg.shrinkwrap with
  | none =>
    have hkey : addChild satisfies fetch spec s tree
        = (newNodeStore s tree (specParentWalk s pkg.name tree tree) pkg,
           AddOut.proceed (Store.size s)) := by
      simp only [addChild, hf, hr, Option.getD_some]
      rw [hex, ← hpw]
      cases hE : earliestInstallable s tree pkg.name <;> simp only [hswo]
    refine ⟨?_, ?_, ?_, ?_, ?_, fun _ => ⟨?_, ?_⟩⟩
    · rw [hkey, getN_newNodeStore_new tree pkg hP]
    · rw [hkey, getN_newNodeStore_parent tree pkg hP]
    · rw [hkey, getN_newNodeStore_new tree pkg hP]
    · rw [hkey, getN_newNodeStore_new tree pkg hP]
    · rw [hkey, size_newNodeStore]
      omega
    · rw [hkey]
    · rw [hkey]
      exact size_newNodeStore s tree _ pkg
  | some sw =>
    cases hswd : sw.dependencies with
    | none =>
      have hkey : addChild satisfies fetch spec s tree
          = (newNodeStore s tree (specParentWalk s pkg.name tree tree) pkg,
             AddOut.proceed (Store.size s)) := by
        simp only [addChild, hf, hr, Option.getD_some]
        rw [hex, ← hpw]
        cases hE : earliestInstallable s tree pkg.name <;> simp only [hswo, hswd]
      refine ⟨?_, ?_, ?_, ?_, ?_, fun _ => ⟨?_, ?_⟩⟩
      · rw [hkey, getN_newNodeStore_new tree pkg hP]
      · rw [hkey, getN_newNodeStore_parent tree pkg hP]
      · rw [hkey, getN_newNodeStore_new tree pkg hP]
      · rw [hkey, getN_newNodeStore_new tree pkg hP]
      · rw [hkey, size_newNodeStore]
        omega
      · rw [hkey]
      · rw [hkey]
        exact size_newNodeStore s tree _ pkg
    | some ds =>
      have hswf : hasSwDeps pkg = true := by simp [hasSwDeps, hswo, hswd]
      have hkey : addChild satisfies fetch spec s tree
          = swOut (inflateShrinkwrap fetch
              (newNodeStore s tree (specParentWalk s pkg.name tree tree) pkg)
              (Store.size s) ds) := by
        simp only [addChild, hf, hr, Option.getD_some]
        rw [hex, ← hpw]
        cases hE : earliestInstallable s tree pkg.name <;> simp only [hswo, hswd]
      have hst : (addChild satisfies fetch spec s tree).1
          = (inflateShrinkwrap fetch
              (newNodeStore s tree (specParentWalk s pkg.name tree tree) pkg)
              (Store.size s) ds).1 := by
        rw [hkey, swOut_fst]
      have hszN : Store.size (newNodeStore s tree (specParentWalk s pkg.name tree tree) pkg)
          = Store.size s + 1 := size_newNodeStore s tree _ pkg
      obtain ⟨ifsz, iffr, ifflds⟩ := inflate_frame fetch ds
        (newNodeStore s tree (specParentWalk s pkg.name tree tree) pkg) (Store.size s)
      have hnew := ifflds (by omega)
      refine ⟨?_, ?_, ?_, ?_, ?_, fun h => absurd (hswf ▸ h) (by simp)⟩
      · rw [hst, hnew.2.1, getN_newNodeStore_new tree pkg hP]
      · have hfrP := iffr (specParentWalk s pkg.name tree tree) (by omega) (Nat.ne_of_lt hP)
        rw [hst, hfrP, getN_newNodeStore_parent tree pkg hP]
      · rw [hst, hnew.1, getN_newNodeStore_new tree pkg hP]
      · rw [hst, hnew.2.2.2.2.1, getN_newNodeStore_new tree pkg hP]
      · rw [hst]
        omega

/-- C1 counterexample: the requirement for `a@^1` is met by the existing,
not yet loaded child 1, so the claim says the tree gains no new child
anywhere and the node is returned — but the resolved record carries a
shrinkwrap, so `addChild` inflates it, pushing a new node `b` under node 1
and completing with a bare `cb()` instead of returning the node. -/
theorem c1_counterexample :
    requirementExists satFix storeMet 0 "a" "^1" = some 1 ∧
    satFix (getN storeMet 1).package.version "^1" = true ∧
    Store.size storeMet = 2 ∧
    Store.size (addChild satFix fetchMet "a@^1" storeMet 0).1 = 3 ∧
    (getN storeMet 1).children = [] ∧
    (getN (addChild satFix fetchMet "a@^1" storeMet 0).1 1).children = [2] ∧
    (getN (addChild satFix fetchMet "a@^1" storeMet 0).1 2).package.name = "b" ∧
    (addChild satFix fetchMet "a@^1" storeMet 0).2 = AddOut.stopped := by
  decide

/-- C1 (corrected): when `requirementExists` finds an existing node `c` for
the resolved record, and that node is already loaded or the record carries
no shrinkwrap dependencies, `addChild` creates no node: the store size and
every node's children are unchanged, the existing node's `requiredby`
gains `tree` (deduplicated by identity), the node matches the record's name
and satisfies the requested range, and `addChild` hands it back for
dependency expansion exactly when it was not yet loaded (completing with
no node when it was). -/
theorem c1_requirement_met_no_new_node
    {satisfies : String → String → Bool} {fetch : String → Except String Pkg}
    {spec : String} {s : Store} {tree c : Nat} {pkg : Pkg} {r : Requested}
    (hf : fetch spec = Except.ok pkg)
    (hr : pkg.requested = some r)
    (hex : requirementExists satisfies s tree pkg.name
            (if r.spec ≠ "" then r.spec else pkg.version) = some c)
    (hc : c < Store.size s)
    (hquiet : (getN s c).loaded = true ∨ hasSwDeps pkg = false) :
    Store.size (addChild satisfies fetch spec s tree).1 = Store.size s ∧
    (∀ j, (getN (addChild satisfies fetch spec s tree).1 j).children = (getN s j).children) ∧
    (addChild satisfies fetch spec s tree).2
      = (if (getN s c).loaded then AddOut.stopped else AddOut.proceed c) ∧
    (getN (addChild satisfies fetch spec s tree).1 c).requiredby
      = (if (getN s c).requiredby.contains tree then (getN s c).requiredby
         else (getN s c).requiredby ++ [tree]) ∧
    tree ∈ (getN (addChild satisfies fetch spec s tree).1 c).requiredby ∧
    (getN s c).package.name = pkg.name ∧
    satisfies (getN s c).package.version (if r.spec ≠ "" then r.spec else pkg.version) = true := by
  obtain ⟨hname, hsat⟩ := requirementExists_some hex
  have hmem : ∀ rb : List Nat, tree ∈ (if rb.contains tree then rb else rb ++ [tree]) := by
    intro rb
    by_cases hct : rb.contains tree
    · simp only [hct, if_true]
      exact List.mem_of_elem_eq_true hct
    · simp only [hct, if_false]
      exact List.mem_append_right _ (List.mem_singleton.mpr rfl)
  by_cases hl : (getN s c).loaded
  · have hkey : addChild satisfies fetch spec s tree
        = (setN s c { getN s c with
              package := { (getN s c).package with requested :=
                match (match (getN s c).package.requested with
                       | none =>
                         if satisfies (getN s c).package.version r.spec then some r
                         else some { spec := (getN s c).package.version, rtype := "version" }
                       | some q => some q) with
                | some q =>
                  if q.spec ≠ r.spec then some { spec := q.spec ++ " " ++ r.spec, rtype := "range" }
                  else some q
                | none => none }
            , requiredby := if (getN s c).requiredby.contains tree then (getN s c).requiredby
                            else (getN s c).requiredby ++ [tree] }
          , AddOut.stopped) := by
      simp only [addChild, hf, hr, Option.getD_some]
      rw [hex]
      simp only [hl, if_true]
    refine ⟨?_, ?_, ?_, ?_, ?_, hname, hsat⟩
    · rw [hkey]; exact size_setN s c _
    · intro j
      rw [hkey]
      by_cases hj : j = c
      · subst hj; rw [getN_setN_self _ hc]
      · rw [getN_setN_ne _ hj]
    · rw [hkey]; simp [hl]
    · rw [hkey, getN_setN_self _ hc]
    · rw [hkey, getN_setN_self _ hc]
      exact hmem _
  · have hl' : (getN s c).loaded = false := Bool.eq_false_iff.mpr hl
    have hswf : hasSwDeps pkg = false := by
      rcases hquiet with h | h
      · rw [hl'] at h; exact absurd h (by simp)
      · exact h
    have hswcase : pkg.shrinkwrap = none ∨
        ∃ sw, pkg.shrinkwrap = some sw ∧ sw.dependencies = none := by
      cases hswo : pkg.shrinkwrap with
      | none => exact Or.inl rfl
      | some sw =>
        cases hswd : sw.dependencies with
        | none => exact Or.inr ⟨sw, rfl, hswd⟩
        | some ds =>
          rw [hasSwDeps, hswo] at hswf
          simp [hswd] at hswf
    have hkey : addChild satisfies fetch spec s tree
        = (setN s c { getN s c with
              package := { (getN s c).package with requested :=
                match (match (getN s c).package.requested with
                       | none =>
                         if satisfies (getN s c).package.version r.spec then some r
                         else some { spec := (getN s c).package.version, rtype := "version" }
                       | some q => some q) with
                | some q =>
                  if q.spec ≠ r.spec then some { spec := q.spec ++ " " ++ r.spec, rtype := "range" }
                  else some q
                | none => none }
            , requiredby := if (getN s c).requiredby.contains tree then (getN s c).requiredby
                            else (getN s c).requiredby ++ [tree]
            , loaded := true }
          , AddOut.proceed c) := by
      simp only [addChild, hf, hr, Option.getD_some]
      rw [hex]
      simp only [hl', Bool.false_eq_true, if_false]
      rcases hswcase with hn | ⟨sw, hsome, hdep⟩
      · simp only [hn]
      · simp only [hsome, hdep]
    refine ⟨?_, ?_, ?_, ?_, ?_, hname, hsat⟩
    · rw [hkey]; exact size_setN s c _
    · intro j
      rw [hkey]
      by_cases hj : j = c
      · subst hj; rw [getN_setN_self _ hc]
      · rw [getN_setN_ne _ hj]
    · rw [hkey]; simp [hl']
    · rw [hkey, getN_setN_self _ hc]
    · rw [hkey, getN_setN_self _ hc]
      exact hmem _

/-- C1 witness: placing `a@^1` at the root of `storeMet` through a plain
record (no shrinkwrap) finds node 1, creates nothing and returns the node
for expansion. -/
theorem c1_witness :
    Store.size (addChild satFix fetchPlain "a@^1" storeMet 0).1 = Store.size storeMet ∧
    (addChild satFix fetchPlain "a@^1" storeMet 0).2
      = (if (getN storeMet 1).loaded then AddOut.stopped else AddOut.proceed 1) ∧
    (0 : Nat) ∈ (getN (addChild satFix fetchPlain "a@^1" storeMet 0).1 1).requiredby := by
  have h := @c1_requirement_met_no_new_node satFix fetchPlain "a@^1" storeMet 0 1
    pkgA ⟨"^1", "range"⟩ (by rfl) (by rfl) (by decide) (by decide) (Or.inr (by rfl))
  exact ⟨h.1, h.2.2.1, h.2.2.2.2.1⟩

/-- C2 witness: placing `x@^1` at node 2 of `storeConflict` puts the new
node 4 under the walk's answer. -/
theorem c2_witness :
    (addChild satFix fetchConflict "x@^1" storeConflict 2).2
      = AddOut.proceed (Store.size storeConflict) ∧
    (getN (addChild satFix fetchConflict "x@^1" storeConflict 2).1
        (Store.size storeConflict)).parent
      = some (specParentWalk storeConflict "x" 2 2) := by
  have h := @c2_parent_choice satFix fetchConflict "x@^1" storeConflict 2
    pkgX ⟨"^1", "range"⟩ (by rfl) (by rfl) (by decide) (by decide)
  exact ⟨(h.2.2.2.2.2 (by rfl)).1, h.1⟩

/-- C3: when `addChild` merges a newly resolved record into an existing
node found by `requirementExists`, the node's `requested` becomes: the
record's `requested` if the node had none and its version satisfies the
record's spec, else a synthesized `{spec: version, type: "version"}` if the
node had none, else its old `requested`; and then, when that base spec
differs from the record's spec, the record's spec is appended with a single
space and the type becomes `"range"`. -/
theorem c3_requested_merge
    {satisfies : String → String → Bool} {fetch : String → Except String Pkg}
    {spec : String} {s : Store} {tree c : Nat} {pkg : Pkg} {r : Requested}
    (hf : fetch spec = Except.ok pkg)
    (hr : pkg.requested = some r)
    (hex : requirementExists satisfies s tree pkg.name
            (if r.spec ≠ "" then r.spec else pkg.version) = some c)
    (hc : c < Store.size s) :
    (getN (addChild satisfies fetch spec s tree).1 c).package.requested
      = some (
          if ((match (getN s c).package.requested with
               | none =>
                 if satisfies (getN s c).package.version r.spec then r
                 else { spec := (getN s c).package.version, rtype := "version" }
               | some q => q) : Requested).spec ≠ r.spec then
            { spec := (match (getN s c).package.requested with
                       | none =>
                         if satisfies (getN s c).package.version r.spec then r
                         else { spec := (getN s c).package.version, rtype := "version" }
                       | some q => q : Requested).spec ++ " " ++ r.spec
            , rtype := "range" }
          else (match (getN s c).package.requested with
                | none =>
                  if satisfies (getN s c).package.version r.spec then r
                  else { spec := (getN s c).package.version, rtype := "version" }
                | some q => q)) := by
  have hval : ∀ old : Option Requested,
      (match (match old with
              | none => if satisfies (getN s c).package.version r.spec then some r
                        else some { spec := (getN s c).package.version, rtype := "version" }
              | some q => some q) with
       | some q =>
         if q.spec ≠ r.spec then some { spec := q.spec ++ " " ++ r.spec, rtype := "range" }
         else some q
       | none => none)
      = some (
          if ((match old with
               | none =>
                 if satisfies (getN s c).package.version r.spec then r
                 else { spec := (getN s c).package.version, rtype := "version" }
               | some q => q) : Requested).spec ≠ r.spec then
            { spec := (match old with
                       | none =>
                         if satisfies (getN s c).package.version r.spec then r
                         else { spec := (getN s c).package.version, rtype := "version" }
                       | some q => q : Requested).spec ++ " " ++ r.spec
            , rtype := "range" }
          else (match old with
                | none =>
                  if satisfies (getN s c).package.version r.spec then r
                  else { spec := (getN s c).package.version, rtype := "version" }
                | some q => q)) := by
    intro old
    cases old with
    | some q =>
      by_cases hq : q.spec ≠ r.spec <;> simp [hq]
    | none =>
      cases hs : satisfies (getN s c).package.version r.spec with
      | true =>
        by_cases hq : r.spec ≠ r.spec <;> simp [hs, hq]
      | false =>
        by_cases hq : (getN s c).package.version ≠ r.spec <;> simp [hs, hq]
  by_cases hl : (getN s c).loaded
  · have hkey : (addChild satisfies fetch spec s tree).1
        = setN s c { getN s c with
            package := { (getN s c).package with requested :=
              match (match (getN s c).package.requested with
                     | none =>
                       if satisfies (getN s c).package.version r.spec then some r
                       else some { spec := (getN s c).package.version, rtype := "version" }
                     | some q => some q) with
              | some q =>
                if q.spec ≠ r.spec then some { spec := q.spec ++ " " ++ r.spec, rtype := "range" }
                else some q
              | none => none }
          , requiredby := if (getN s c).requiredby.contains tree then (getN s c).requiredby
                          else (getN s c).requiredby ++ [tree] } := by
      simp only [addChild, hf, hr, Option.getD_some]
      rw [hex]
      simp only [hl, if_true]
    rw [hkey, getN_setN_self _ hc]
    exact hval _
  · have hl' : (getN s c).loaded = false := Bool.eq_false_iff.mpr hl
    cases hswo : pkg.shrinkwrap with
    | none =>
      have hkey : (addChild satisfies fetch spec s tree).1
          = setN s c { getN s c with
              package := { (getN s c).package with requested :=
                match (match (getN s c).package.requested with
                       | none =>
                         if satisfies (getN s c).package.version r.spec then some r
                         else some { spec := (getN s c).package.version, rtype := "version" }
                       | some q => some q) with
                | some q =>
                  if q.spec ≠ r.spec then some { spec := q.spec ++ " " ++ r.spec, rtype := "range" }
                  else some q
                | none => none }
            , requiredby := if (getN s c).requiredby.contains tree then (getN s c).requiredby
                            else (getN s c).requiredby ++ [tree]
            , loaded := true } := by
        simp only [addChild, hf, hr, Option.getD_some]
        rw [hex]
        simp only [hl', Bool.false_eq_true, if_false, hswo]
      rw [hkey, getN_setN_self _ hc]
      exact hval _
    | some sw =>
      cases hswd : sw.dependencies with
      | none =>
        have hkey : (addChild satisfies fetch spec s tree).1
            = setN s c { getN s c with
                package := { (getN s c).package with requested :=
                  match (match (getN s c).package.requested with
                         | none =>
                           if satisfies (getN s c).package.version r.spec then some r
                           else some { spec := (getN s c).package.version, rtype := "version" }
                         | some q => some q) with
                  | some q =>
                    if q.spec ≠ r.spec then some { spec := q.spec ++ " " ++ r.spec, rtype := "range" }
                    else some q
                  | none => none }
              , requiredby := if (getN s c).requiredby.contains tree then (getN s c).requiredby
                              else (getN s c).requiredby ++ [tree]
              , loaded := true } := by
          simp only [addChild, hf, hr, Option.getD_some]
          rw [hex]
          simp only [hl', Bool.false_eq_true, if_false, hswo, hswd]
        rw [hkey, getN_setN_self _ hc]
        exact hval _
      | some ds =>
        have hkey : (addChild satisfies fetch spec s tree).1
            = (inflateShrinkwrap fetch (setN s c { getN s c with
                package := { (getN s c).package with requested :=
                  match (match (getN s c).package.requested with
                         | none =>
                           if satisfies (getN s c).package.version r.spec then some r
                           else some { spec := (getN s c).package.version, rtype := "version" }
                         | some q => some q) with
                  | some q =>
                    if q.spec ≠ r.spec then some { spec := q.spec ++ " " ++ r.spec, rtype := "range" }
                    else some q
                  | none => none }
              , requiredby := if (getN s c).requiredby.contains tree then (getN s c).requiredby
                              else (getN s c).requiredby ++ [tree]
              , loaded := true }) c ds).1 := by
          simp only [addChild, hf, hr, Option.getD_some]
          rw [hex]
          simp only [hl', Bool.false_eq_true, if_false, hswo, hswd]
          cases hinf : inflateShrinkwrap fetch (setN s c { getN s c with
              package := { (getN s c).package with requested :=
                match (match (getN s c).package.requested with
                       | none =>
                         if satisfies (getN s c).package.version r.spec then some r
                         else some { spec := (getN s c).package.version, rtype := "version" }
                       | some q => some q) with
                | some q =>
                  if q.spec ≠ r.spec then some { spec := q.spec ++ " " ++ r.spec, rtype := "range" }
                  else some q
                | none => none }
            , requiredby := if (getN s c).requiredby.contains tree then (getN s c).requiredby
                            else (getN s c).requiredby ++ [tree]
            , loaded := true }) c ds with
          | mk s3 e3 => cases e3 <;> rfl
        have hcset : c < Store.size (setN s c { getN s c with
            package := { (getN s c).package with requested :=
              match (match (getN s c).package.requested with
                     | none =>
                       if satisfies (getN s c).package.version r.spec then some r
                       else some { spec := (getN s c).package.version, rtype := "version" }
                     | some q => some q) with
              | some q =>
                if q.spec ≠ r.spec then some { spec := q.spec ++ " " ++ r.spec, rtype := "range" }
                else some q
              | none => none }
          , requiredby := if (getN s c).requiredby.contains tree then (getN s c).requiredby
                          else (getN s c).requiredby ++ [tree]
          , loaded := true }) := by
          rw [size_setN]; exact hc
        have hfr := (inflate_frame fetch ds _ c).2.2 hcset
        rw [hkey, hfr.1, getN_setN_self _ hc]
        exact hval _

/-- C3 witness: merging `a@^1` into the existing requested-less node 1 of
`storeMet` adopts the record's requested descriptor. -/
theorem c3_witness :
    (getN (addChild satFix fetchPlain "a@^1" storeMet 0).1 1).package.requested
      = some ⟨"^1", "range"⟩ := by
  have h := @c3_requested_merge satFix fetchPlain "a@^1" storeMet 0 1
    pkgA ⟨"^1", "range"⟩ (by rfl) (by rfl) (by decide) (by decide)
  rw [h]
  decide

/-- The record `a@1` resolves to in the dev-dependency witness: no
dependencies of its own. -/
def pkgA1 : Pkg := { name := "a", version := "1.0.0", requested := some ⟨"1", "range"⟩ }

/-- Resolver for the dev-dependency witness: only `a@1` resolves. -/
def fetchDev : String → Except String Pkg := fun sp =>
  if sp = "a@1" then Except.ok pkgA1 else Except.error "404"

/-- `storeOpt` after `a@1` was placed under the root and the load of its
own dependency `b@1` failed. -/
def storeOpt1 : Store :=
  [ { package := { name := "root", dependencies := [("a", "1")]
                 , optionalDependencies := [("a", "1")] }
    , children := [1] }
  , { package := pkgAB, parent := some 0, children := [], requiredby := [0], loaded := true
    , path := ["node_modules", "a"], realpath := ["node_modules", "a"] } ]

/-- `storeDev` after `a@1` was placed under the root by `addChild`. -/
def storeDev1 : Store :=
  [ { package := { name := "root", devDependencies := [("a", "1")] }, children := [1] }
  , { package := pkgA1, parent := some 0, children := [], requiredby := [0], loaded := true
    , path := ["node_modules", "a"], realpath := ["node_modules", "a"] } ]

/-- C6 counterexample: `a` is declared both as a runtime and as an optional
dependency of the root; `a@1` itself resolves, but loading its own
dependency `b@1` fails.  The failure is downgraded — no error, one warning
— yet the subtree for `a` is not absent: the placed child remains in the
tree.  The claim promises an absent subtree for every resolution *or load*
failure; only resolution failures leave the tree unchanged. -/
theorem c6_counterexample :
    (loadDeps satFix fetchOpt 5 storeOpt (some 0)).2.2 = none ∧
    (loadDeps satFix fetchOpt 5 storeOpt (some 0)).2.1 = [warnMsg "404"] ∧
    (getN storeOpt 0).children = [] ∧
    (getN (loadDeps satFix fetchOpt 5 storeOpt (some 0)).1 0).children = [1] ∧
    (getN (loadDeps satFix fetchOpt 5 storeOpt (some 0)).1 1).package.name = "a" := by
  decide

/-- C6 (corrected): a failure under a dependency that is also optional is
caught at the loader boundary — the per-dependency continuation yields no
error and appends one warning, and the surrounding pass continues with the
remaining dependencies; when the failure is the resolution itself, the
store is untouched (the subtree is absent), while a deeper load failure
leaves the already-placed child in the tree. -/
theorem c6_optional_failure_downgraded
    {satisfies : String → String → Bool} {fetch : String → Except String Pkg}
    {fuel : Nat} {s s1 : Store} {t : Nat} {opts rest : List (String × String)}
    {dep ver : String} {w1 : List String} {e : String}
    (hopt : truthyLookup opts dep = true)
    (hfail : (match addChild satisfies fetch (dep ++ "@" ++ ver) s t with
              | (s1, AddOut.errored e) => (s1, ([] : List String), some e)
              | (s1, AddOut.stopped) => (s1, [], none)
              | (s1, AddOut.proceed c) =>
                loadDepsList satisfies fetch fuel s1 c
                  (getN s1 c).package.optionalDependencies
                  (getN s1 c).package.dependencies)
        = (s1, w1, some e)) :
    loadDepsList satisfies fetch (fuel + 1) s t opts ((dep, ver) :: rest)
      = ((loadDepsList satisfies fetch fuel s1 t opts rest).1,
         (w1 ++ [warnMsg e]) ++ (loadDepsList satisfies fetch fuel s1 t opts rest).2.1,
         (loadDepsList satisfies fetch fuel s1 t opts rest).2.2) ∧
    (∀ e2, fetch (dep ++ "@" ++ ver) = Except.error e2 →
       addChild satisfies fetch (dep ++ "@" ++ ver) s t = (s, AddOut.errored e2)) := by
  constructor
  · simp only [loadDepsList]
    rw [hfail]
    simp only [hopt, if_true, warnOnError]
  · intro e2 hfe
    simp [addChild, hfe]

/-- C6 witness: the counterexample scenario run through the corrected
boundary theorem — no error surfaces and exactly the one warning is
logged. -/
theorem c6_witness :
    (loadDepsList satFix fetchOpt 4 storeOpt 0 [("a", "1")] [("a", "1")]).2.2 = none ∧
    (loadDepsList satFix fetchOpt 4 storeOpt 0 [("a", "1")] [("a", "1")]).2.1
      = [warnMsg "404"] := by
  have h := @c6_optional_failure_downgraded satFix fetchOpt 3 storeOpt storeOpt1 0
    [("a", "1")] [] "a" "1" [] "404" (by decide) (by decide)
  rw [h.1]
  exact ⟨by decide, by decide⟩

/-- C8 counterexample: the dev dependency `a@1` is placed with parent 0,
its parent link is nulled for the detached recursive load, and that load
fails (`b@1` does not resolve) — the error propagates and the parent link
is left `none`, not restored to the placing parent. -/
theorem c8_counterexample :
    (getN (addChild satFix fetchOpt "a@1" storeDev 0).1 1).parent = some 0 ∧
    (loadDevDeps satFix fetchOpt 5 storeDev 0).2.2 = some "404" ∧
    (getN (loadDevDeps satFix fetchOpt 5 storeDev 0).1 1).parent = none ∧
    (getN (loadDevDeps satFix fetchOpt 5 storeDev 0).1 1).package.name = "a" := by
  decide

/-- C8 (corrected): for a dev dependency child placed by `addChild`, the
parent link is nulled before the detached recursive load, and it is
restored to the original placing parent exactly when that load completes
without error; on a load error the error propagates with no restore
step. -/
theorem c8_detached_reload
    {satisfies : String → String → Bool} {fetch : String → Except String Pkg}
    {fuel : Nat} {s s1 : Store} {t c : Nat} {dep ver : String}
    (hadd : addChild satisfies fetch (dep ++ "@" ++ ver) s t = (s1, AddOut.proceed c))
    (hc : c < Store.size s1) :
    (getN (modN s1 c (fun n => { n with parent := none })) c).parent = none ∧
    (∀ s3 w, loadDeps satisfies fetch fuel
          (modN s1 c (fun n => { n with parent := none })) (some c) = (s3, w, none) →
        c < Store.size s3 →
      loadDevDepOne satisfies fetch fuel s t dep ver
        = (modN s3 c (fun n => { n with parent := (getN s1 c).parent }), w, none) ∧
      (getN (loadDevDepOne satisfies fetch fuel s t dep ver).1 c).parent
        = (getN s1 c).parent) ∧
    (∀ s3 w e, loadDeps satisfies fetch fuel
          (modN s1 c (fun n => { n with parent := none })) (some c) = (s3, w, some e) →
      loadDevDepOne satisfies fetch fuel s t dep ver = (s3, w, some e)) := by
  refine ⟨?_, ?_, ?_⟩
  · rw [modN, getN_setN_self _ hc]
  · intro s3 w hld hc3
    have hkey : loadDevDepOne satisfies fetch fuel s t dep ver
        = (modN s3 c (fun n => { n with parent := (getN s1 c).parent }), w, none) := by
      simp only [loadDevDepOne]
      rw [hadd]
      dsimp only
      rw [hld]
    refine ⟨hkey, ?_⟩
    rw [hkey]
    simp only [modN]
    rw [getN_setN_self _ hc3]
  · intro s3 w e hld
    simp only [loadDevDepOne]
    rw [hadd]
    dsimp only
    rw [hld]

/-- `storeDev1` with the parent link of the dev-dep child nulled. -/
def storeDev1n : Store :=
  [ { package := { name := "root", devDependencies := [("a", "1")] }, children := [1] }
  , { package := pkgA1, parent := none, children := [], requiredby := [0], loaded := true
    , path := ["node_modules", "a"], realpath := ["node_modules", "a"] } ]

/-- C8 witness: a dev dependency whose detached load succeeds has its
parent link nulled during the load and restored afterwards. -/
theorem c8_witness :
    (getN (modN storeDev1 1 (fun n => { n with parent := none })) 1).parent = none ∧
    (getN (loadDevDepOne satFix fetchDev 2 storeDev 0 "a" "1").1 1).parent
      = (getN storeDev1 1).parent := by
  have h := @c8_detached_reload satFix fetchDev 2 storeDev storeDev1 0 1 "a" "1"
    (by decide) (by decide)
  exact ⟨h.1, (h.2.1 storeDev1n [] (by decide) (by decide)).2⟩

theorem serialBlock_phase (p : String) : ∀ n, ∀ e ∈ serialBlock p n, Ev.phaseOf e = p := by
  intro n
  induction n with
  | zero => intro e he; simp [serialBlock] at he
  | succ n ih =>
    intro e he
    rw [serialBlock] at he
    rcases List.mem_append.1 he with h | h
    · exact ih e h
    · rcases List.mem_cons.1 h with h1 | h1
      · subst h1; rfl
      · rcases List.mem_cons.1 h1 with h2 | h2
        · subst h2; rfl
        · simp at h2

theorem parBlock_phase {p : String} {count : Nat} {bl : List Ev} (h : ParBlock p count bl) :
    ∀ e ∈ bl, Ev.phaseOf e = p :=
  fun e he => serialBlock_phase p count e (h.1.mem_iff.1 he)

theorem planTrace_names {cnt : String → Nat} :
    ∀ {plan : List (String × Mode)} {tr : List Ev}, PlanTrace cnt plan tr →
    ∀ e ∈ tr, ∃ pm, pm ∈ plan ∧ Ev.phaseOf e = pm.1 := by
  intro plan tr h
  induction h with
  | nil => intro e he; simp at he
  | @ser r rest tr' hrest ih =>
    intro e he
    rcases List.mem_append.1 he with h1 | h1
    · exact ⟨(r, Mode.ser), List.mem_cons_self _ _, serialBlock_phase r _ e h1⟩
    · obtain ⟨pm, hpm, hep⟩ := ih e h1
      exact ⟨pm, List.mem_cons_of_mem _ hpm, hep⟩
  | @par r bl rest tr' hpar hrest ih =>
    intro e he
    rcases List.mem_append.1 he with h1 | h1
    · exact ⟨(r, Mode.par), List.mem_cons_self _ _, parBlock_phase hpar e h1⟩
    · obtain ⟨pm, hpm, hep⟩ := ih e h1
      exact ⟨pm, List.mem_cons_of_mem _ hpm, hep⟩

theorem cross_append {r : String} {rest : List (String × Mode)} {tr' bl : List Ev}
    (hblock : ∀ e ∈ bl, Ev.phaseOf e = r)
    (hnames : ∀ e ∈ tr', ∃ pm, pm ∈ rest ∧ Ev.phaseOf e = pm.1)
    (hnot : r ∉ rest.map Prod.fst)
    (IH : ∀ i j p mp q mq a b e f, rest.get? i = some (p, mp) → rest.get? j = some (q, mq) →
       i < j → tr'.get? a = some e → tr'.get? b = some f →
       Ev.phaseOf e = p → Ev.phaseOf f = q → a < b) :
    ∀ (hd : String × Mode), hd.1 = r →
    ∀ i j p mp q mq a b e f, (hd :: rest).get? i = some (p, mp) →
      (hd :: rest).get? j = some (q, mq) → i < j →
      (bl ++ tr').get? a = some e → (bl ++ tr').get? b = some f →
      Ev.phaseOf e = p → Ev.phaseOf f = q → a < b := by
  intro hd hhd i j p mp q mq a b e f hpi hqj hij ha hb hep hfq
  have hqj' : rest.get? (j - 1) = some (q, mq) := by
    cases j with
    | zero => omega
    | succ j0 => simpa using hqj
  have hqmem : (q, mq) ∈ rest := List.get?_mem hqj'
  have hqname : q ∈ rest.map Prod.fst := List.mem_map.mpr ⟨(q, mq), hqmem, rfl⟩
  have hqr : q ≠ r := fun hEq => hnot (hEq ▸ hqname)
  have hbge : bl.length ≤ b := by
    by_contra hlt
    push_neg at hlt
    have hfbl : f ∈ bl := by
      have heq : (bl ++ tr').get? b = bl.get? b := List.get?_append hlt
      rw [heq] at hb
      exact List.get?_mem hb
    exact hqr (hfq.symm.trans (hblock f hfbl))
  have hbtr' : tr'.get? (b - bl.length) = some f := by
    rw [← List.get?_append_right hbge]
    exact hb
  cases i with
  | zero =>
    have hpr : p = r := by
      have : hd = (p, mp) := by simpa using hpi
      rw [← hhd, this]
    have halt : a < bl.length := by
      by_contra hge
      push_neg at hge
      have hatr' : tr'.get? (a - bl.length) = some e := by
        rw [← List.get?_append_right hge]
        exact ha
      obtain ⟨pm, hpm, hep'⟩ := hnames e (List.get?_mem hatr')
      apply hnot
      have hpmr : pm.1 = r := by rw [← hep', hep, hpr]
      exact hpmr ▸ List.mem_map.mpr ⟨pm, hpm, rfl⟩
    omega
  | succ i0 =>
    have hpi' : rest.get? i0 = some (p, mp) := by simpa using hpi
    have hpname : p ∈ rest.map Prod.fst :=
      List.mem_map.mpr ⟨(p, mp), List.get?_mem hpi', rfl⟩
    have hpr : p ≠ r := fun hEq => hnot (hEq ▸ hpname)
    have hage : bl.length ≤ a := by
      by_contra hlt
      push_neg at hlt
      have hebl : e ∈ bl := by
        have heq : (bl ++ tr').get? a = bl.get? a := List.get?_append hlt
        rw [heq] at ha
        exact List.get?_mem ha
      exact hpr (hep.symm.trans (hblock e hebl))
    have hatr' : tr'.get? (a - bl.length) = some e := by
      rw [← List.get?_append_right hage]
      exact ha
    have hrec := IH i0 (j - 1) p mp q mq (a - bl.length) (b - bl.length) e f
      hpi' hqj' (by omega) hatr' hbtr' hep hfq
    omega

theorem planTrace_cross {cnt : String → Nat} :
    ∀ {plan : List (String × Mode)} {tr : List Ev}, PlanTrace cnt plan tr →
    (plan.map Prod.fst).Nodup →
    ∀ i j p mp q mq a b e f, plan.get? i = some (p, mp) → plan.get? j = some (q, mq) →
      i < j → tr.get? a = some e → tr.get? b = some f →
      Ev.phaseOf e = p → Ev.phaseOf f = q → a < b := by
  intro plan tr h
  induction h with
  | nil =>
    intro _ i j p mp q mq a b e f hpi
    simp at hpi
  | @ser r rest tr' hrest ih =>
    intro hnodup
    have hnot : r ∉ rest.map Prod.fst := by
      simp only [List.map_cons, List.nodup_cons] at hnodup
      exact hnodup.1
    have hnodup' : (rest.map Prod.fst).Nodup := by
      simp only [List.map_cons, List.nodup_cons] at hnodup
      exact hnodup.2
    exact cross_append (serialBlock_phase r (cnt r)) (planTrace_names hrest) hnot
      (ih hnodup') (r, Mode.ser) rfl
  | @par r bl rest tr' hpar hrest ih =>
    intro hnodup
    have hnot : r ∉ rest.map Prod.fst := by
      simp only [List.map_cons, List.nodup_cons] at hnodup
      exact hnodup.1
    have hnodup' : (rest.map Prod.fst).Nodup := by
      simp only [List.map_cons, List.nodup_cons] at hnodup
      exact hnodup.2
    exact cross_append (parBlock_phase hpar) (planTrace_names hrest) hnot
      (ih hnodup') (r, Mode.par) rfl

theorem planTrace_serial_filter {cnt : String → Nat} :
    ∀ {plan : List (String × Mode)} {tr : List Ev}, PlanTrace cnt plan tr →
    (plan.map Prod.fst).Nodup →
    ∀ q, (q, Mode.ser) ∈ plan →
      tr.filter (fun e => Ev.phaseOf e == q) = serialBlock q (cnt q) := by
  intro plan tr h
  induction h with
  | nil =>
    intro _ q hq
    simp at hq
  | @ser r rest tr' hrest ih =>
    intro hnodup q hq
    have hnot : r ∉ rest.map Prod.fst := by
      simp only [List.map_cons, List.nodup_cons] at hnodup
      exact hnodup.1
    have hnodup' : (rest.map Prod.fst).Nodup := by
      simp only [List.map_cons, List.nodup_cons] at hnodup
      exact hnodup.2
    rcases List.mem_cons.1 hq with heq | hmem
    · have hqr : q = r := congrArg Prod.fst heq
      subst hqr
      rw [List.filter_append]
      have h1 : (serialBlock q (cnt q)).filter (fun e => Ev.phaseOf e == q)
          = serialBlock q (cnt q) :=
        List.filter_eq_self.mpr (fun e he => by simp [serialBlock_phase q _ e he])
      have h2 : tr'.filter (fun e => Ev.phaseOf e == q) = [] := by
        rw [List.filter_eq_nil]
        intro e he
        obtain ⟨pm, hpm, hep⟩ := planTrace_names hrest e he
        have hpq : pm.1 ≠ q := fun hEq =>
          hnot (hEq ▸ List.mem_map.mpr ⟨pm, hpm, rfl⟩)
        simp [hep, beq_iff_eq]
        exact hpq
      rw [h1, h2, List.append_nil]
    · have hqr : q ≠ r := fun hEq =>
        hnot (hEq ▸ List.mem_map.mpr ⟨(q, Mode.ser), hmem, rfl⟩)
      rw [List.filter_append]
      have h1 : (serialBlock r (cnt r)).filter (fun e => Ev.phaseOf e == q) = [] := by
        rw [List.filter_eq_nil]
        intro e he
        simp [serialBlock_phase r _ e he, beq_iff_eq]
        exact fun hEq => hqr hEq.symm
      rw [h1, ih hnodup' q hmem, List.nil_append]
  | @par r bl rest tr' hpar hrest ih =>
    intro hnodup q hq
    have hnot : r ∉ rest.map Prod.fst := by
      simp only [List.map_cons, List.nodup_cons] at hnodup
      exact hnodup.1
    have hnodup' : (rest.map Prod.fst).Nodup := by
      simp only [List.map_cons, List.nodup_cons] at hnodup
      exact hnodup.2
    rcases List.mem_cons.1 hq with heq | hmem
    · have hms : Mode.ser = Mode.par := congrArg Prod.snd heq
      exact absurd hms (by decide)
    · have hqr : q ≠ r := fun hEq =>
        hnot (hEq ▸ List.mem_map.mpr ⟨(q, Mode.ser), hmem, rfl⟩)
      rw [List.filter_append]
      have h1 : bl.filter (fun e => Ev.phaseOf e == q) = [] := by
        rw [List.filter_eq_nil]
        intro e he
        simp [parBlock_phase hpar e he, beq_iff_eq]
        exact fun hEq => hqr hEq.symm
      rw [h1, ih hnodup' q hmem, List.nil_append]

/-- C4: the phase steps of the plan `thenInstall` chains are exactly
fetch, extract, preinstall, build, remove, finalize, install, postinstall
(then test when `npat` is set), with fetch through remove and test run by
`doParallel` and finalize, install, postinstall run by `doSerial`; and in
every execution trace of that plan — `chain` runs one phase block after
another, `doParallel` admitting any interleaving of its entries and
`doSerial` running them one-completes-before-next-starts in emission order
— every event of an earlier phase precedes every event of a later phase,
and the events of each serial phase are exactly its entries in emission
order.  (`chain`, `doParallel` and `doSerial` live in `install/actions.js`,
which is not part of the given sources; their trace semantics is modelled
from the spec.) -/
theorem c4_phase_order (args : List String) (npat production devCfg : Bool) :
    phasesOf (thenInstallSteps args npat production devCfg)
      = [("fetch", Mode.par), ("extract", Mode.par), ("preinstall", Mode.par),
         ("build", Mode.par), ("remove", Mode.par), ("finalize", Mode.ser),
         ("install", Mode.ser), ("postinstall", Mode.ser)]
        ++ (if npat then [("test", Mode.par)] else []) ∧
    (∀ (cnt : String → Nat) (tr : List Ev),
      PlanTrace cnt (phasesOf (thenInstallSteps args npat production devCfg)) tr →
      (∀ i j p mp q mq a b e f,
        (phasesOf (thenInstallSteps args npat production devCfg)).get? i = some (p, mp) →
        (phasesOf (thenInstallSteps args npat production devCfg)).get? j = some (q, mq) →
        i < j → tr.get? a = some e → tr.get? b = some f →
        Ev.phaseOf e = p → Ev.phaseOf f = q → a < b) ∧
      (∀ q, (q, Mode.ser) ∈ phasesOf (thenInstallSteps args npat production devCfg) →
        tr.filter (fun e => Ev.phaseOf e == q) = serialBlock q (cnt q))) := by
  have hp : phasesOf (thenInstallSteps args npat production devCfg)
      = [("fetch", Mode.par), ("extract", Mode.par), ("preinstall", Mode.par),
         ("build", Mode.par), ("remove", Mode.par), ("finalize", Mode.ser),
         ("install", Mode.ser), ("postinstall", Mode.ser)]
        ++ (if npat then [("test", Mode.par)] else []) := by
    cases args <;> cases npat <;> cases production <;> cases devCfg <;>
      simp [thenInstallSteps, phasesOf]
  have hnodup : ((phasesOf (thenInstallSteps args npat production devCfg)).map
      Prod.fst).Nodup := by
    rw [hp]
    cases npat <;> decide
  exact ⟨hp, fun cnt tr htr =>
    ⟨fun i j p mp q mq a b e f hpi hqj hij ha hb hep hfq =>
      planTrace_cross htr hnodup i j p mp q mq a b e f hpi hqj hij ha hb hep hfq,
     fun q hq => planTrace_serial_filter htr hnodup q hq⟩⟩

/-- C4 witness: the nine-phase plan with `npat` on, exercised on the empty
trace (every phase decomposed zero entries). -/
theorem c4_witness :
    phasesOf (thenInstallSteps [] true false false)
      = [("fetch", Mode.par), ("extract", Mode.par), ("preinstall", Mode.par),
         ("build", Mode.par), ("remove", Mode.par), ("finalize", Mode.ser),
         ("install", Mode.ser), ("postinstall", Mode.ser), ("test", Mode.par)] ∧
    ([] : List Ev).filter (fun e => Ev.phaseOf e == "finalize")
      = serialBlock "finalize" 0 := by
  have h := c4_phase_order [] true false false
  have hpar0 : ∀ p : String, ParBlock p ((fun _ : String => (0 : Nat)) p) [] := fun p =>
    ⟨by simp [serialBlock], fun k hk => absurd hk (Nat.not_lt_zero k)⟩
  have hplan : phasesOf (thenInstallSteps [] true false false)
      = [("fetch", Mode.par), ("extract", Mode.par), ("preinstall", Mode.par),
         ("build", Mode.par), ("remove", Mode.par), ("finalize", Mode.ser),
         ("install", Mode.ser), ("postinstall", Mode.ser), ("test", Mode.par)] := by
    rw [h.1]
    rfl
  have htr : PlanTrace (fun _ => 0) (phasesOf (thenInstallSteps [] true false false)) [] := by
    rw [hplan]
    exact PlanTrace.par (hpar0 "fetch")
      (PlanTrace.par (hpar0 "extract")
        (PlanTrace.par (hpar0 "preinstall")
          (PlanTrace.par (hpar0 "build")
            (PlanTrace.par (hpar0 "remove")
              (PlanTrace.ser
                (PlanTrace.ser
                  (PlanTrace.ser
                    (PlanTrace.par (hpar0 "test")
                      (PlanTrace.nil : PlanTrace (fun _ : String => 0) [] [])))))))))
  refine ⟨hplan, ?_⟩
  exact (h.2 (fun _ => 0) [] htr).2 "finalize" (by rw [hplan]; decide)

/-- A total resolver, as the lockfile inflater sees one that never fails. -/
def okFetch (f : String → Pkg) : String → Except String Pkg := fun sp => Except.ok (f sp)

/-- C7: for every node `t` and pinned map `ds`, `inflateShrinkwrap`
completes and appends to `t`'s children exactly one new child per map
entry — resolved by fetching exactly `name@version` (no range resolution),
marked loaded, with `requiredby` exactly `[t]` and path
`join(parent.path, "node_modules", name)` (the resolved record's name,
which is the entry name whenever the resolver returns the name it was
asked for).  The statement holds for every store, in particular when a
satisfying copy of an entry exists higher in the tree: no ancestor-based
deduplication happens.  Entries with sub-dependencies recurse through the
same function, so this theorem applies at every level. -/
theorem c7_inflate_exact (f : String → Pkg) :
    ∀ (ds : SwList) (s : Store) (t : Nat), t < Store.size s →
      (inflateShrinkwrap (okFetch f) s t ds).2 = none ∧
      ∃ ids : List Nat,
        (getN (inflateShrinkwrap (okFetch f) s t ds).1 t).children
          = (getN s t).children ++ ids ∧
        ids.length = ds.entries.length ∧
        List.Forall₂ (fun id e =>
          Store.size s ≤ id ∧
          (getN (inflateShrinkwrap (okFetch f) s t ds).1 id).package = f (e.1 ++ "@" ++ e.2) ∧
          (getN (inflateShrinkwrap (okFetch f) s t ds).1 id).loaded = true ∧
          (getN (inflateShrinkwrap (okFetch f) s t ds).1 id).requiredby = [t] ∧
          (getN (inflateShrinkwrap (okFetch f) s t ds).1 id).path
            = (getN s t).path ++ ["node_modules", (f (e.1 ++ "@" ++ e.2)).name] ∧
          ((f (e.1 ++ "@" ++ e.2)).name = e.1 →
            (getN (inflateShrinkwrap (okFetch f) s t ds).1 id).path
              = (getN s t).path ++ ["node_modules", e.1]))
          ids ds.entries := by
  intro ds
  induction ds with
  | nil =>
    intro s t ht
    exact ⟨rfl, [], (List.append_nil _).symm, rfl, List.Forall₂.nil⟩
  | consNone nm ver rest ih =>
    intro s t ht
    have hred : inflateShrinkwrap (okFetch f) s t (SwList.consNone nm ver rest)
        = inflateShrinkwrap (okFetch f) (swAttach s t (f (nm ++ "@" ++ ver))) t rest := rfl
    have hsz1 : Store.size (swAttach s t (f (nm ++ "@" ++ ver))) = Store.size s + 1 :=
      size_swAttach s t _
    have ht1 : t < Store.size (swAttach s t (f (nm ++ "@" ++ ver))) := by omega
    obtain ⟨iherr, ids', hch, hlen, hfa⟩ := ih (swAttach s t (f (nm ++ "@" ++ ver))) t ht1
    have hchAtt : (getN (swAttach s t (f (nm ++ "@" ++ ver))) t).children
        = (getN s t).children ++ [Store.size s] := by
      rw [getN_swAttach_t _ ht]
    have hpathAtt : (getN (swAttach s t (f (nm ++ "@" ++ ver))) t).path = (getN s t).path := by
      rw [getN_swAttach_t _ ht]
    refine ⟨by rw [hred]; exact iherr, Store.size s :: ids', ?_, ?_, ?_⟩
    · rw [hred, hch, hchAtt, List.append_assoc]
      rfl
    · simp [SwList.entries, hlen]
    · rw [hred]
      refine List.Forall₂.cons ?_ ?_
      · have hfr := (inflate_frame (okFetch f) rest (swAttach s t (f (nm ++ "@" ++ ver))) t).2.1
          (Store.size s) (by omega) (Ne.symm (Nat.ne_of_lt ht))
        rw [hfr, getN_swAttach_new _ ht]
        exact ⟨Nat.le_refl _, rfl, rfl, rfl, rfl, fun hn => by rw [swChild]; simp [hn]⟩
      · refine List.Forall₂.imp ?_ hfa
        intro id e hpred
        obtain ⟨h1, h2, h3, h4, h5, h6⟩ := hpred
        refine ⟨by omega, h2, h3, h4, ?_, ?_⟩
        · rw [h5, hpathAtt]
        · intro hn
          rw [h6 hn, hpathAtt]
  | consSome nm ver ds rest ihds ihrest =>
    intro s t ht
    have hsz1 : Store.size (swAttach s t (f (nm ++ "@" ++ ver))) = Store.size s + 1 :=
      size_swAttach s t _
    have hts1 : Store.size s < Store.size (swAttach s t (f (nm ++ "@" ++ ver))) := by omega
    obtain ⟨ierr, _⟩ := ihds (swAttach s t (f (nm ++ "@" ++ ver))) (Store.size s) hts1
    obtain ⟨ifsz, iffr, ifflds⟩ :=
      inflate_frame (okFetch f) ds (swAttach s t (f (nm ++ "@" ++ ver))) (Store.size s)
    cases hinner : inflateShrinkwrap (okFetch f) (swAttach s t (f (nm ++ "@" ++ ver)))
        (Store.size s) ds with
    | mk s2 e2 =>
      rw [hinner] at ierr ifsz iffr ifflds
      cases e2 with
      | some e => exact absurd ierr (by simp)
      | none =>
        have hred : inflateShrinkwrap (okFetch f) s t (SwList.consSome nm ver ds rest)
            = inflateShrinkwrap (okFetch f) s2 t rest := by
          rw [inflateShrinkwrap]
          dsimp only [okFetch]
          rw [hinner]
        have hs2sz : Store.size s + 1 ≤ Store.size s2 := by
          rw [← hsz1]; exact ifsz
        have hts2 : t < Store.size s2 := by omega
        have hnodet : getN s2 t = getN (swAttach s t (f (nm ++ "@" ++ ver))) t :=
          iffr t (by omega) (Nat.ne_of_lt ht)
        have hchAtt : (getN s2 t).children = (getN s t).children ++ [Store.size s] := by
          rw [hnodet, getN_swAttach_t _ ht]
        have hpathAtt : (getN s2 t).path = (getN s t).path := by
          rw [hnodet, getN_swAttach_t _ ht]
        have hnew := ifflds (by omega)
        have hnewAtt : getN (swAttach s t (f (nm ++ "@" ++ ver))) (Store.size s)
            = swChild s t (f (nm ++ "@" ++ ver)) := getN_swAttach_new _ ht
        obtain ⟨rerr, ids', hch, hlen, hfa⟩ := ihrest s2 t hts2
        refine ⟨by rw [hred]; exact rerr, Store.size s :: ids', ?_, ?_, ?_⟩
        · rw [hred, hch, hchAtt, List.append_assoc]
          rfl
        · simp [SwList.entries, hlen]
        · rw [hred]
          refine List.Forall₂.cons ?_ ?_
          · have hfr := (inflate_frame (okFetch f) rest s2 t).2.1
              (Store.size s) (by omega) (Ne.symm (Nat.ne_of_lt ht))
            rw [hfr]
            rw [hnewAtt] at hnew
            refine ⟨Nat.le_refl _, ?_, ?_, ?_, ?_, ?_⟩
            · rw [hnew.1]; rfl
            · rw [hnew.2.2.2.1]; rfl
            · rw [hnew.2.2.1]; rfl
            · rw [hnew.2.2.2.2.1]; rfl
            · intro hn
              rw [hnew.2.2.2.2.1, swChild]
              simp [hn]
          · refine List.Forall₂.imp ?_ hfa
            intro id e hpred
            obtain ⟨h1, h2, h3, h4, h5, h6⟩ := hpred
            refine ⟨by omega, h2, h3, h4, ?_, ?_⟩
            · rw [h5, hpathAtt]
            · intro hn
              rw [h6 hn, hpathAtt]

/-- The record `b@1.0.0` resolves to in the inflater witness. -/
def pkgB : Pkg := { name := "b", version := "1.0.0", requested := some ⟨"1.0.0", "version"⟩ }

/-- A concrete total resolver for the inflater witness. -/
def fWit : String → Pkg := fun sp => if sp = "b@1.0.0" then pkgB else {}

/-- C7 witness: inflating the one-entry map `b → 1.0.0` under the root of
`storeMet` completes and appends exactly one child. -/
theorem c7_witness :
    (inflateShrinkwrap (okFetch fWit) storeMet 0 (SwList.consNone "b" "1.0.0" SwList.nil)).2
      = none ∧
    ∃ ids : List Nat,
      (getN (inflateShrinkwrap (okFetch fWit) storeMet 0
          (SwList.consNone "b" "1.0.0" SwList.nil)).1 0).children
        = (getN storeMet 0).children ++ ids ∧
      ids.length = 1 := by
  have h := c7_inflate_exact fWit (SwList.consNone "b" "1.0.0" SwList.nil) storeMet 0 (by decide)
  obtain ⟨herr, ids, hch, hlen, _⟩ := h
  exact ⟨herr, ids, hch, by rw [hlen]; rfl⟩
